import Mathlib

/-!
Verification of the projplan forward-scheduling engine.

This file gives a shallow embedding, in Lean 4, of the algorithmic core of the
projplan repository (src/projplan/scenario.py, src/projplan/resources.py and the
input adapters under src/projplan/filehandlers/), and proves or refutes the
frozen specification claims about it.

Modelling conventions:
* Calendar dates are integers (days); the scheduler indexes the timeline by
  natural-number day offsets 0, 1, 2, ...
* Python floats are modelled as rationals `ℚ` (the algorithms only add,
  subtract, multiply, divide and compare).
* pandas DataFrames holding one numeric column per pool over the timeline are
  modelled as `List (List ℚ)` (pool-major, day-minor); cell update is
  `List.set`, cell read is `List.getD` with default 0.
* Task-number strings and blocking patterns are `List Char`; pandas
  `Series.str.contains` (whose arguments in this program are literal task
  numbers or the empty string) is modelled as substring containment.
* The unbounded `while` loops of `_scheduleSingleDate` are modelled with an
  explicit fuel parameter; the returned flag `done` is `true` exactly when the
  loop exited through its own condition or `break`, and `false` when the fuel
  ran out first, so non-termination of the Python loop is expressed as
  `done = false` for every fuel.
* `showUnusedResources` is `False` by default in the source and is modelled as
  `False` throughout (the `unused` pool machinery is dead under the default).
-/

namespace Projplan

/-! ### Generic list-cell helpers -/

/-- Read a cell of a pool-major table, defaulting to 0. -/
def get2 (m : List (List ℚ)) (p d : Nat) : ℚ :=
  (m.getD p []).getD d 0

/-- Write a cell of a pool-major table (out-of-range writes are dropped,
matching `List.set`). -/
def set2 (m : List (List ℚ)) (p d : Nat) (v : ℚ) : List (List ℚ) :=
  m.set p ((m.getD p []).set d v)

/-! ### Substring matching

`pandas.Series.str.contains` is used by the scheduler's blocking check; in this
program the patterns are literal task numbers (no regex metacharacters) or the
empty string, so it is modelled as substring containment. -/

/-- `pat` occurs at the head of `s`. -/
def isHeadMatch : List Char → List Char → Bool
  | [], _ => true
  | _ :: _, [] => false
  | a :: as, b :: bs => a == b && isHeadMatch as bs

/-- `pat` occurs somewhere inside `s` (models `Series.str.contains` for the
literal patterns this program uses). -/
def containsB (pat : List Char) : List Char → Bool
  | [] => isHeadMatch pat []
  | c :: rest => isHeadMatch pat (c :: rest) || containsB pat rest

/-! ### Piecewise parameter model (src/projplan/resources.py)

`ResourcePool.parameters` resolves each attribute column from a list of
`Constraint(start, end, value)` records: every day of the timeline starts
undefined (`NaN`, modelled `none`); each constraint in input order overwrites
the days in `[start, end]`; then the column is forward-filled (`ffill`) and
backward-filled (`bfill`).  An unbounded start/end (`None` in Python, mapped to
the year-1 / year-9999 sentinels) is modelled as `Option.none`, which every
timeline day satisfies. -/

structure Constraint where
  first : Option Int
  last  : Option Int
  value : ℚ
deriving DecidableEq

/-- Does day `d` fall in the (inclusive, possibly unbounded) range of `c`?
Mirrors `(index >= constraint.start) & (index <= constraint.end)` together with
the infinite sentinels of `Constraint.start` / `Constraint.end`. -/
def Constraint.applies (c : Constraint) (d : Int) : Bool :=
  (match c.first with
   | none => true
   | some s => decide (s ≤ d)) &&
  (match c.last with
   | none => true
   | some e => decide (d ≤ e))

/-- One marking pass: overwrite the days covered by `c` with its value. -/
def markConstraint (timeline : List Int) (acc : List (Option ℚ)) (c : Constraint) :
    List (Option ℚ) :=
  (timeline.zip acc).map (fun de => if c.applies de.1 then some c.value else de.2)

/-- Apply all constraints in input order to an initially undefined series. -/
def applyConstraints (timeline : List Int) (cs : List Constraint) : List (Option ℚ) :=
  cs.foldl (markConstraint timeline) (timeline.map (fun _ => none))

/-- Forward fill: an undefined day inherits the nearest earlier defined value
(`last` is the value carried in from the left). -/
def ffillList (last : Option ℚ) : List (Option ℚ) → List (Option ℚ)
  | [] => []
  | none :: rest => last :: ffillList last rest
  | some v :: rest => some v :: ffillList (some v) rest

/-- Backward fill: an undefined day inherits the nearest later defined value. -/
def bfillList (l : List (Option ℚ)) : List (Option ℚ) :=
  (ffillList none l.reverse).reverse

/-- Resolve one attribute column over the timeline, as
`ResourcePool.parameters` does: mark every constraint in input order, then
forward-fill, then backward-fill. -/
def resolveColumn (timeline : List Int) (cs : List Constraint) : List (Option ℚ) :=
  bfillList (ffillList none (applyConstraints timeline cs))

/-- The integer timeline `[lo, lo+1, ..., lo+n-1]`. -/
def intRange (lo : Int) (n : Nat) : List Int :=
  (List.range n).map (fun k => lo + (k : Int))

/-! ### Scheduler data model (src/projplan/scenario.py)

A backlog row of `self._backlogs[projectname]` carries the task number, the
pool's (mutable) remaining-effort cell, and the pool's blocking-constraint
cell; `taskIdx` is the row label (`mrdIdx`) into the task list.  The per-pool
per-day capacity table `self._schedulableResources` and the Roadmap are
pool-major `List (List ℚ)`; recorded completion dates
(`self.mrdTaskDeadlines`) are per-pool association lists from row label to day
index (a cell is written at most once, since a completed task leaves the
backlog for good). -/

structure BacklogEntry where
  taskIdx : Nat
  number : List Char
  effort : ℚ
  constr : List Char
deriving DecidableEq, Inhabited

/-- Static configuration of one resource pool: its `allocateFreeResources`
flag and its resolved per-day efficiency series. -/
structure Pool where
  allocFree : Bool
  eff : List ℚ
deriving DecidableEq, Inhabited

/-- Static environment of a run: the declared pools (indexed by position) and
the precomputed read-only `remainingRessources` per-day series (clamped to be
nonnegative by `_resetRemainingRessources`). -/
structure Env where
  pools : List Pool
  remaining : List ℚ
deriving DecidableEq, Inhabited

/-- Mutable scheduler state: per-pool backlogs, the per-pool per-day
remaining-capacity table (`_schedulableResources`), the Roadmap, and the
per-pool recorded completion dates (`mrdTaskDeadlines`). -/
structure Sched where
  backlogs : List (List BacklogEntry)
  caps : List (List ℚ)
  roadmap : List (List ℚ)
  deadlines : List (List (Nat × Nat))
deriving DecidableEq, Inhabited

/-- Result of one `_scheduleSingleDate` call under a fuel bound: the state,
and `done = true` exactly when the `while` loop exited through its own
condition or its `break` (rather than by exhausting the fuel). -/
structure StepRes where
  st : Sched
  done : Bool
deriving DecidableEq, Inhabited

/-- Efficiency of pool `p` on day `d`. -/
def effAt (env : Env) (p d : Nat) : ℚ :=
  (env.pools.getD p default).eff.getD d 0

/-- The `while` condition of `_scheduleSingleDate`: positive remaining
capacity for this pool/day, a nonempty capacity series, a nonempty backlog. -/
def loopCond (s : Sched) (p d : Nat) : Bool :=
  decide (0 < get2 s.caps p d) &&
  !(s.caps.getD p []).isEmpty &&
  !(s.backlogs.getD p []).isEmpty

/-- The blocking check of `_scheduleSingleDate` (line 267): does any backlog
(of any pool) contain a task number matched by the pattern? -/
def blockedCheck (backlogs : List (List BacklogEntry)) (pat : List Char) : Bool :=
  backlogs.any (fun bl => bl.any (fun e => containsB pat e.number))

/-- Shallow embedding of `_scheduleSingleDate(dateIdx, projectname)` (scenario.py
lines 258-285) with an explicit fuel bound.  `bIdx` is the `backlogIdx`
cursor (initially 0). -/
def scheduleSingleDate (env : Env) (d p : Nat) : Nat → Nat → Sched → StepRes
  | 0, _, s => ⟨s, !loopCond s p d⟩
  | fuel + 1, bIdx, s =>
    if loopCond s p d then
      let bl := s.backlogs.getD p []
      let e := bl.getD bIdx default
      if blockedCheck s.backlogs e.constr then
        -- the head-of-line task cannot be scheduled: break out of the loop
        ⟨s, true⟩
      else
        let onePersonWork := effAt env p d * 1
        let maxActualWork := effAt env p d * get2 s.caps p d
        let workToDo := min e.effort (min onePersonWork maxActualWork)
        let newEffort := e.effort - workToDo
        let bl1 := bl.set bIdx { e with effort := newEffort }
        let caps1 := set2 s.caps p d (get2 s.caps p d - workToDo)
        if newEffort = 0 then
          -- task finished: record the completion date, drop the row, cursor to 0
          scheduleSingleDate env d p fuel 0
            { s with
              backlogs := s.backlogs.set p (bl1.eraseIdx bIdx),
              caps := caps1,
              deadlines := s.deadlines.set p ((e.taskIdx, d) :: s.deadlines.getD p []) }
        else
          let bIdx1 := if bIdx + 1 < bl1.length then bIdx + 1 else 0
          scheduleSingleDate env d p fuel bIdx1
            { s with backlogs := s.backlogs.set p bl1, caps := caps1 }
    else ⟨s, true⟩

/-- One allocation pass over the pools of `projectnames`, in order, threading
the state and accumulating the loop-completion flags. -/
def schedulePass (env : Env) (d : Nat) (names : List Nat) (fuel : Nat)
    (s : Sched) (ok : Bool) : Sched × Bool :=
  names.foldl (fun acc p =>
    let r := scheduleSingleDate env d p fuel 0 acc.1
    (r.st, acc.2 && r.done)) (s, ok)

/-- `Scenario.allocatingFocusareas` (scenario.py lines 179-187, with
`showUnusedResources = False`): pools flagged `allocateFreeResources` with a
nonempty backlog; if there are none, the fallback returns every pool flagged
`allocateFreeResources`. -/
def allocatingFA (env : Env) (s : Sched) : List Nat :=
  let l := (List.range env.pools.length).filter
    (fun i => (env.pools.getD i default).allocFree && !(s.backlogs.getD i []).isEmpty)
  if l.isEmpty then
    (List.range env.pools.length).filter (fun i => (env.pools.getD i default).allocFree)
  else l

/-- The per-day redistribution step of `_scheduleForward` (scenario.py lines
237-242).  Note the source's inner loop reads `self._schedulableResources
[projectname]` where `projectname` is the stale loop variable of the preceding
first-pass loop — i.e. the LAST entry of `projectnames` — while the Roadmap
update uses the intended loop variable `name`; the embedding reproduces this
verbatim via `names.getLastD 0`. -/
def redistribute (env : Env) (d : Nat) (names : List Nat) (s : Sched) : Sched :=
  let alloc := allocatingFA env s
  if alloc.isEmpty then s
  else
    let share := env.remaining.getD d 0 / (alloc.length : ℚ)
    let lastP := names.getLastD 0
    alloc.foldl (fun st name =>
      { st with
        caps := set2 st.caps lastP d (get2 st.caps lastP d + share),
        roadmap := set2 st.roadmap name d (get2 st.roadmap name d + share) }) s

/-- One iteration of the day loop of `_scheduleForward`: first pass over all
pools, redistribution, second pass (with `showUnusedResources = False` the
unused-resources move is skipped). -/
def scheduleDay (env : Env) (names : List Nat) (fuel d : Nat)
    (s : Sched) (ok : Bool) : Sched × Bool :=
  let r1 := schedulePass env d names fuel s ok
  let s2 := redistribute env d names r1.1
  schedulePass env d names fuel s2 r1.2

/-- Are all backlogs empty? -/
def allBacklogsEmpty (s : Sched) : Bool :=
  s.backlogs.all (fun bl => bl.isEmpty)

/-- The day-advancing loop of `_scheduleForward` (scenario.py lines 226-254)
over the remaining timeline day indices.  It always runs the body for the
current day, then stops when the next day falls outside the timeline (`[]`) or
every backlog is empty; the unprocessed day indices are returned alongside the
state and the accumulated inner-loop completion flag. -/
def scheduleForward (env : Env) (names : List Nat) (fuel : Nat) :
    Sched → Bool → List Nat → Sched × Bool × List Nat
  | s, ok, [] => (s, ok, [])
  | s, ok, d :: rest =>
    let r := scheduleDay env names fuel d s ok
    if allBacklogsEmpty r.1 then (r.1, r.2, rest)
    else scheduleForward env names fuel r.1 r.2 rest

/-- The states reached by running the day body over a list of days without
any stop test — used to characterise where `scheduleForward` stops. -/
def runDays (env : Env) (names : List Nat) (fuel : Nat)
    (s : Sched) (ok : Bool) (l : List Nat) : Sched × Bool :=
  l.foldl (fun acc d => scheduleDay env names fuel d acc.1 acc.2) (s, ok)

/-! ### Task list, backlog initialisation and the GitlabCsv ordering -/

/-- One task row of the parsed task list: row label, task number, task-group
index, priority, one effort cell and one blocking-constraint cell per pool. -/
structure TaskRow where
  taskIdx : Nat
  number : List Char
  groupIdx : Nat
  priority : Int
  efforts : List ℚ
  constrs : List (List Char)
deriving DecidableEq, Inhabited

/-- Effort assigned to pool `p` by row `r`. -/
def rowEffort (r : TaskRow) (p : Nat) : ℚ := r.efforts.getD p 0

/-- Backlog initialisation of `_resetRoadmapDatastructures` (scenario.py line
195): the rows of the task list with nonzero effort in this pool, in task-list
order (no sorting happens here). -/
def backlogInit (tl : List TaskRow) (p : Nat) : List BacklogEntry :=
  (tl.filter (fun r => !(rowEffort r p == 0))).map
    (fun r => ⟨r.taskIdx, r.number, rowEffort r p, r.constrs.getD p []⟩)

/-- The ordering key of `GitlabCsv.readPlanningFile` (gitlabcsv.py line 83):
task-group index ascending, then priority descending.  The embedding uses a
stable insertion sort; pandas `sort_values` applies the same key. -/
def gitlabLE (a b : TaskRow) : Bool :=
  decide (a.groupIdx < b.groupIdx) ||
  (a.groupIdx == b.groupIdx && decide (b.priority ≤ a.priority))

def insertRow (x : TaskRow) : List TaskRow → List TaskRow
  | [] => [x]
  | y :: ys => if gitlabLE x y then x :: y :: ys else y :: insertRow x ys

/-- The task-list ordering produced by the GitlabCsv adapter. -/
def gitlabSortTasklist : List TaskRow → List TaskRow
  | [] => []
  | x :: xs => insertRow x (gitlabSortTasklist xs)

/-- Build the initial scheduler state: per-pool backlogs filtered from the
task list, the given capacity table (the pool resources series with weekends
and holidays already forced to zero), the given initial Roadmap
(basecost + resources), and empty completion-date tables. -/
def initState (env : Env) (tl : List TaskRow) (caps0 roadmap0 : List (List ℚ)) : Sched :=
  { backlogs := (List.range env.pools.length).map (fun p => backlogInit tl p),
    caps := caps0,
    roadmap := roadmap0,
    deadlines := (List.range env.pools.length).map (fun _ => []) }

/-- A full `scheduleTasks` run over `nDays` timeline days (all pools
schedulable, as with the default `projectnames`). -/
def runSchedule (env : Env) (tl : List TaskRow) (caps0 roadmap0 : List (List ℚ))
    (fuel nDays : Nat) : Sched × Bool × List Nat :=
  scheduleForward env (List.range env.pools.length) fuel
    (initState env tl caps0 roadmap0) true (List.range nDays)

/-! ### Deadline aggregation (src/projplan/scenario.py lines 287-292) -/

/-- The recorded completion date of task row `t` in pool `p` (`none` = the
`mrdTaskDeadlines` cell is still NaN). -/
def poolTaskDeadline (s : Sched) (p t : Nat) : Option Nat :=
  ((s.deadlines.getD p []).find? (fun e => e.1 == t)).map (fun e => e.2)

/-- `Series.max` over recorded dates; `none` on an empty series (pandas NaN). -/
def maxDateO : List Nat → Option Nat
  | [] => none
  | d :: ds => some (ds.foldl max d)

/-- `_setTaskgroupDeadlines` for one group/pool cell: select the member rows
of the group, take their recorded completion dates in this pool, drop the
unset ones, and take the maximum. -/
def taskgroupDeadline (tl : List TaskRow) (s : Sched) (g p : Nat) : Option Nat :=
  maxDateO ((tl.filter (fun r => r.groupIdx == g)).filterMap
    (fun r => poolTaskDeadline s p r.taskIdx))

/-- The claim's reading of the same cell (C9): the maximum is taken over the
member tasks that were assigned nonzero effort in the pool. -/
def taskgroupDeadlineSpec (tl : List TaskRow) (s : Sched) (g p : Nat) : Option Nat :=
  maxDateO ((tl.filter (fun r => r.groupIdx == g && !(rowEffort r p == 0))).filterMap
    (fun r => poolTaskDeadline s p r.taskIdx))

/-! ### The claim's single-iteration formulas (C1), from the spec's words -/

/-- C1's claimed unit of work: the minimum of one nominal unit of labor, the
remaining capacity divided by the parallelizability, and the remaining
effort. -/
def unitOfWorkClaim (cap par effort : ℚ) : ℚ :=
  min 1 (min (cap / par) effort)

/-- C1's claimed remaining-effort update. -/
def effortAfterClaim (effort effQ u : ℚ) : ℚ := effort - effQ * u

/-- C1's claimed remaining-capacity update. -/
def capAfterClaim (cap u : ℚ) : ℚ := cap - u

/-- C5 fixtures: two tasks in one pool.  `tRowLowG0` comes first in the input
with low priority (1) and effort 4; `tRowHighG0` comes later with high
priority (3) and effort 2, in the same task-group; `tRowHighG1` is the same
high-priority task placed in a LATER task-group. -/
def tRowLowG0 : TaskRow := ⟨0, ['1'], 0, 1, [4], [['N']]⟩

def tRowHighG0 : TaskRow := ⟨1, ['2'], 0, 3, [2], [['N']]⟩

def tRowHighG1 : TaskRow := ⟨1, ['2'], 1, 3, [2], [['N']]⟩

/-- One pool with capacity and efficiency 1 on each of 7 days, no surplus. -/
def envB : Env := ⟨[⟨false, [1, 1, 1, 1, 1, 1, 1]⟩], [0, 0, 0, 0, 0, 0, 0]⟩

/-- Intermediate states of the C5 scenario run (one per scheduled day). -/
def c5s0 : Sched := ⟨[[⟨1, ['2'], 2, ['N']⟩, ⟨0, ['1'], 4, ['N']⟩]],
  [[1, 1, 1, 1, 1, 1, 1]], [[0, 0, 0, 0, 0, 0, 0]], [[]]⟩

def c5s1 : Sched := ⟨[[⟨1, ['2'], 1, ['N']⟩, ⟨0, ['1'], 4, ['N']⟩]],
  [[0, 1, 1, 1, 1, 1, 1]], [[0, 0, 0, 0, 0, 0, 0]], [[]]⟩

def c5s2 : Sched := ⟨[[⟨0, ['1'], 4, ['N']⟩]],
  [[0, 0, 1, 1, 1, 1, 1]], [[0, 0, 0, 0, 0, 0, 0]], [[(1, 1)]]⟩

def c5s3 : Sched := ⟨[[⟨0, ['1'], 3, ['N']⟩]],
  [[0, 0, 0, 1, 1, 1, 1]], [[0, 0, 0, 0, 0, 0, 0]], [[(1, 1)]]⟩

def c5s4 : Sched := ⟨[[⟨0, ['1'], 2, ['N']⟩]],
  [[0, 0, 0, 0, 1, 1, 1]], [[0, 0, 0, 0, 0, 0, 0]], [[(1, 1)]]⟩

def c5s5 : Sched := ⟨[[⟨0, ['1'], 1, ['N']⟩]],
  [[0, 0, 0, 0, 0, 1, 1]], [[0, 0, 0, 0, 0, 0, 0]], [[(1, 1)]]⟩

def c5s6 : Sched := ⟨[[]],
  [[0, 0, 0, 0, 0, 0, 1]], [[0, 0, 0, 0, 0, 0, 0]], [[(0, 5), (1, 1)]]⟩

/-! ### Nonnegativity predicates (for C8) -/

/-- Every cell of a pool-major table is nonnegative. -/
def NonnegTable (m : List (List ℚ)) : Prop :=
  ∀ row ∈ m, ∀ x ∈ row, 0 ≤ x

/-- Every capacity cell, Roadmap cell and backlog remaining-effort value is
nonnegative. -/
def NonnegState (s : Sched) : Prop :=
  NonnegTable s.caps ∧ NonnegTable s.roadmap ∧
  ∀ bl ∈ s.backlogs, ∀ e ∈ bl, 0 ≤ e.effort

/-- Every efficiency value lies in `[0, 1]`. -/
def EffLeOne (env : Env) : Prop :=
  ∀ pool ∈ env.pools, ∀ x ∈ pool.eff, 0 ≤ x ∧ x ≤ 1

/-- The precomputed remaining-resources series is nonnegative (guaranteed in
the source by the clamping in `_resetRemainingRessources`). -/
def NonnegRemaining (env : Env) : Prop :=
  ∀ x ∈ env.remaining, 0 ≤ x

/-- Every recorded completion date, and every backlog entry, of pool `p`
belongs to a task-list row that assigns the pool nonzero effort (for C9). -/
def StateFromTasklist (tl : List TaskRow) (s : Sched) : Prop :=
  (∀ p pr, pr ∈ s.deadlines.getD p [] →
    ∃ r ∈ tl, r.taskIdx = pr.1 ∧ rowEffort r p ≠ 0) ∧
  (∀ p e, e ∈ s.backlogs.getD p [] →
    ∃ r ∈ tl, r.taskIdx = e.taskIdx ∧ rowEffort r p ≠ 0)

/-- Every backlog entry of every pool still owes strictly positive effort
(for the termination half of C7). -/
def PosBacklogs (s : Sched) : Prop :=
  ∀ p, ∀ e ∈ s.backlogs.getD p [], 0 < e.effort

/-! ### Concrete fixtures used by the witnesses and counterexamples

Non-integer rationals in fixtures are written with `mkRat` so that concrete
goals stay kernel-reducible. -/

/-- One pool, efficiency 1 on the single day, no surplus to distribute. -/
def envA : Env := ⟨[⟨false, [1]⟩], [0]⟩

/-- C1's counterexample state: efficiency 2 variant. -/
def envEff2 : Env := ⟨[⟨false, [2]⟩], [0]⟩

/-- C7's counterexample environment: efficiency 0 on every day. -/
def envEff0 : Env := ⟨[⟨false, [0, 0]⟩], [0, 0]⟩

/-- A single task of effort 10, capacity 1 on the only day. -/
def sEffort10 : Sched := ⟨[[⟨0, ['1'], 10, ['N']⟩]], [[1]], [[0]], [[]]⟩

/-- C2's counterexample state: remaining effort 1.005 labor-days. -/
def sEps : Sched := ⟨[[⟨0, ['1'], mkRat 201 200, ['N']⟩]], [[1]], [[0]], [[]]⟩

/-- A single task whose remaining effort is exactly one labor-day. -/
def sOne : Sched := ⟨[[⟨0, ['1'], 1, ['N']⟩]], [[1]], [[0]], [[]]⟩

/-- C7's counterexample state: effort 5 outstanding, capacity 1. -/
def sStuck : Sched := ⟨[[⟨0, ['1'], 5, ['N']⟩]], [[1]], [[0]], [[]]⟩

/-- C3's witness state: the head task's pattern matches its own number. -/
def sSelfBlock : Sched := ⟨[[⟨0, ['1'], 5, ['1']⟩, ⟨1, ['2'], 3, ['N']⟩]], [[4]], [[0]], [[]]⟩

/-- C10's witness state: the head task's constraint cell is the empty string
(what `CsvRaw.readPlanningFile` fills in for missing constraints). -/
def sEmptyPat : Sched := ⟨[[⟨0, ['1'], 5, []⟩]], [[1, 1]], [[0, 0]], [[]]⟩

/-- C4's fixture: pool 0 absorbs surplus and has a nonempty backlog, pool 1
does not absorb; both have zero own capacity on the single day; 2 units of
unclaimed capacity stand to be distributed. -/
def envC4 : Env := ⟨[⟨true, [1]⟩, ⟨false, [1]⟩], [2]⟩

def sC4 : Sched := ⟨[[⟨0, ['1'], 5, ['N']⟩], []], [[0], [0]], [[0], [0]], [[], []]⟩

/-! ### Helper lemmas for the cell-table and matching primitives -/

theorem getD_set_ne {α : Type} (l : List α) (i j : Nat) (x d : α) (h : i ≠ j) :
    (l.set i x).getD j d = l.getD j d := by
  induction l generalizing i j with
  | nil => rfl
  | cons a t ih =>
    cases i with
    | zero =>
      cases j with
      | zero => exact absurd rfl h
      | succ j => rfl
    | succ i =>
      cases j with
      | zero => rfl
      | succ j =>
        show (t.set i x).getD j d = t.getD j d
        exact ih i j (fun e => h (by rw [e]))

theorem getD_set_self {α : Type} (l : List α) (i : Nat) (x d : α) (h : i < l.length) :
    (l.set i x).getD i d = x := by
  induction l generalizing i with
  | nil => simp at h
  | cons a t ih =>
    cases i with
    | zero => rfl
    | succ i =>
      show (t.set i x).getD i d = x
      exact ih i (Nat.lt_of_succ_lt_succ h)

theorem getD_set_out {α : Type} (l : List α) (i : Nat) (x : α) (h : ¬ i < l.length) :
    l.set i x = l := by
  induction l generalizing i with
  | nil => rfl
  | cons a t ih =>
    cases i with
    | zero => simp at h
    | succ i =>
      show a :: t.set i x = a :: t
      rw [ih i (fun hh => h (Nat.succ_lt_succ hh))]

theorem get2_set2_ne (m : List (List ℚ)) (p d q e : Nat) (v : ℚ)
    (h : p ≠ q ∨ d ≠ e) : get2 (set2 m p d v) q e = get2 m q e := by
  rcases h with h | h
  · unfold get2 set2
    rw [getD_set_ne m p q _ [] h]
  · unfold get2 set2
    by_cases hpq : p = q
    · subst hpq
      by_cases hl : p < m.length
      · rw [getD_set_self m p _ [] hl]
        exact getD_set_ne _ d e v 0 h
      · rw [getD_set_out m p _ hl]
    · rw [getD_set_ne m p q _ [] hpq]

theorem get2_set2_self (m : List (List ℚ)) (p d : Nat) (v : ℚ)
    (hp : p < m.length) (hd : d < (m.getD p []).length) :
    get2 (set2 m p d v) p d = v := by
  unfold get2 set2
  rw [getD_set_self m p _ [] hp]
  exact getD_set_self _ d v 0 hd

theorem length_set2 (m : List (List ℚ)) (p d q : Nat) (v : ℚ) :
    ((set2 m p d v).getD q []).length = (m.getD q []).length := by
  unfold set2
  by_cases hpq : p = q
  · subst hpq
    by_cases hl : p < m.length
    · rw [getD_set_self m p _ [] hl, List.length_set]
    · rw [getD_set_out m p _ hl]
  · rw [getD_set_ne m p q _ [] hpq]

theorem length_set2_outer (m : List (List ℚ)) (p d : Nat) (v : ℚ) :
    (set2 m p d v).length = m.length := by
  unfold set2; exact List.length_set ..

theorem containsB_nil (s : List Char) : containsB [] s = true := by
  cases s with
  | nil => rfl
  | cons c rest => rfl

/-- An out-of-range `getD` returns the default; otherwise a member. -/
theorem getD_mem_or_eq {α : Type} (l : List α) (n : Nat) (d : α) :
    l.getD n d ∈ l ∨ l.getD n d = d := by
  induction l generalizing n with
  | nil => exact Or.inr rfl
  | cons a t ih =>
    cases n with
    | zero => exact Or.inl (List.mem_cons_self a t)
    | succ n =>
      rcases ih n with h | h
      · exact Or.inl (List.mem_cons_of_mem a h)
      · exact Or.inr h

/-- An empty blocking pattern matches every backlog as soon as any backlog
(in particular, the one indexed by `p`) is nonempty. -/
theorem blockedCheck_nil (backlogs : List (List BacklogEntry)) (p : Nat)
    (h : backlogs.getD p [] ≠ []) : blockedCheck backlogs [] = true := by
  rcases getD_mem_or_eq backlogs p [] with hm | he
  · cases hbl : backlogs.getD p [] with
    | nil => exact absurd hbl h
    | cons e rest =>
      rw [hbl] at hm
      refine List.any_eq_true.mpr ⟨e :: rest, hm, ?_⟩
      exact List.any_eq_true.mpr ⟨e, List.mem_cons_self e rest, containsB_nil e.number⟩
  · exact absurd he h

/-- A `_scheduleSingleDate` call whose head-of-backlog task is blocked leaves
the whole state unchanged, and (with fuel to inspect the condition at all) the
loop exits via its `break`. -/
theorem scheduleSingleDate_break (env : Env) (d p fuel : Nat) (s : Sched)
    (h : blockedCheck s.backlogs ((s.backlogs.getD p []).getD 0 default).constr = true) :
    (scheduleSingleDate env d p fuel 0 s).st = s ∧
    (0 < fuel → (scheduleSingleDate env d p fuel 0 s).done = true) := by
  cases fuel with
  | zero => exact ⟨rfl, fun h0 => absurd h0 (Nat.lt_irrefl 0)⟩
  | succ n =>
    have key : scheduleSingleDate env d p (n + 1) 0 s = ⟨s, true⟩ := by
      rw [scheduleSingleDate]
      by_cases hc : loopCond s p d
      · rw [if_pos hc]
        exact if_pos h
      · exact if_neg hc
    rw [key]
    exact ⟨rfl, fun _ => rfl⟩

/-- One non-blocked iteration of the `_scheduleSingleDate` loop: the unit of
work is `min(remainingEffort, efficiency*1, efficiency*remainingCapacity)`,
and it is subtracted both from the task's remaining effort and from the pool's
remaining capacity; the task is removed (and its completion date recorded)
exactly when the updated remaining effort equals 0. -/
theorem scheduleSingleDate_iter (env : Env) (d p bIdx fuel : Nat) (s : Sched)
    (e : BacklogEntry) (w : ℚ)
    (hcond : loopCond s p d = true)
    (he : (s.backlogs.getD p []).getD bIdx default = e)
    (hnb : blockedCheck s.backlogs e.constr = false)
    (hw : w = min e.effort (min (effAt env p d * 1) (effAt env p d * get2 s.caps p d))) :
    (e.effort - w = 0 →
      scheduleSingleDate env d p (fuel + 1) bIdx s =
        scheduleSingleDate env d p fuel 0
          ⟨s.backlogs.set p (((s.backlogs.getD p []).set bIdx
              { e with effort := e.effort - w }).eraseIdx bIdx),
           set2 s.caps p d (get2 s.caps p d - w), s.roadmap,
           s.deadlines.set p ((e.taskIdx, d) :: s.deadlines.getD p [])⟩) ∧
    (e.effort - w ≠ 0 →
      scheduleSingleDate env d p (fuel + 1) bIdx s =
        scheduleSingleDate env d p fuel
          (if bIdx + 1 < ((s.backlogs.getD p []).set bIdx
              { e with effort := e.effort - w }).length then bIdx + 1 else 0)
          ⟨s.backlogs.set p ((s.backlogs.getD p []).set bIdx
              { e with effort := e.effort - w }),
           set2 s.caps p d (get2 s.caps p d - w), s.roadmap, s.deadlines⟩) := by
  subst he
  subst hw
  constructor <;> intro h0
  · rw [scheduleSingleDate]
    rw [if_pos hcond]
    simp only []
    rw [if_neg (by rw [hnb]; exact Bool.false_ne_true), if_pos h0]
  · rw [scheduleSingleDate]
    rw [if_pos hcond]
    simp only []
    rw [if_neg (by rw [hnb]; exact Bool.false_ne_true), if_neg h0]

/-! ### Claim C6 — gap-filling of piecewise constraints -/

/-- C6: resolving an attribute over a Timeline applies each constraint in
input order (later constraints win on overlap), then forward-fills, then
backward-fills.  First conjunct: the claim's own instance — constraints
`[(Jan 1 - Jan 10, 5), (Jan 20 - Jan 31, 9)]` over `Jan 1 .. Jan 31` (days
encoded 1..31) resolve to 5 on days 1-10, 5 (forward-filled) on days 11-19,
and 9 on days 20-31.  Second conjunct: later constraints overwrite earlier
ones on overlap — `[(1-20, 5), (10-31, 9)]` resolves to 5 on days 1-9 and 9
on days 10-31. -/
theorem c6_theorem :
    resolveColumn (intRange 1 31)
        [⟨some 1, some 10, 5⟩, ⟨some 20, some 31, 9⟩]
      = List.replicate 19 (some (5 : ℚ)) ++ List.replicate 12 (some 9) ∧
    resolveColumn (intRange 1 31)
        [⟨some 1, some 20, 5⟩, ⟨some 10, some 31, 9⟩]
      = List.replicate 9 (some (5 : ℚ)) ++ List.replicate 22 (some 9) :=
  ⟨by decide, by decide⟩

/-! ### Claim C3 — a blocked head-of-line task stalls the whole pool -/

/-- C3: if the task at the head of a pool's backlog declares a blocking
pattern that matches a task number still present in any pool's backlog, the
entire `_scheduleSingleDate` allocation loop for that pool stops for the day:
the state is returned unchanged (the blocked task is not skipped, no other
backlog entry of the pool receives any work, no capacity is consumed) and the
loop exits through its `break` rather than by running out of fuel. -/
theorem c3_theorem (env : Env) (d p fuel : Nat) (s : Sched)
    (hblocked : blockedCheck s.backlogs
        ((s.backlogs.getD p []).getD 0 default).constr = true) :
    (scheduleSingleDate env d p fuel 0 s).st = s ∧
    (0 < fuel → (scheduleSingleDate env d p fuel 0 s).done = true) :=
  scheduleSingleDate_break env d p fuel s hblocked

/-- Witness for C3: a pool with positive capacity whose head task's pattern
matches its own task number; the allocation loop changes nothing and breaks. -/
theorem c3_witness :
    blockedCheck sSelfBlock.backlogs
        ((sSelfBlock.backlogs.getD 0 []).getD 0 default).constr = true ∧
    loopCond sSelfBlock 0 0 = true ∧
    (scheduleSingleDate envA 0 0 5 0 sSelfBlock).st = sSelfBlock ∧
    (scheduleSingleDate envA 0 0 5 0 sSelfBlock).done = true := by
  have hb : blockedCheck sSelfBlock.backlogs
      ((sSelfBlock.backlogs.getD 0 []).getD 0 default).constr = true := by decide
  exact ⟨hb, by decide, (c3_theorem envA 0 0 5 sSelfBlock hb).1,
    (c3_theorem envA 0 0 5 sSelfBlock hb).2 (by decide)⟩

/-! ### Claim C1 — the per-iteration unit of work -/

/-- Counterexample to C1 as stated.  Pool with efficiency 2 and remaining
capacity 1, head task with remaining effort 10.  The code's iteration takes
`workToDo = min(10, 2*1, 2*1) = 2` and subtracts it from BOTH the effort (10
to 8) and the capacity (1 to -1).  The claim's formulas (with the day's
parallelizability taken as 1) give unit `min(1, 1/1, 10) = 1` and a remaining
capacity of `1 - 1 = 0`, not `-1`: the code neither divides capacity by
parallelizability nor subtracts a bare (efficiency-free) unit from capacity. -/
theorem c1_counterexample :
    get2 (scheduleSingleDate envEff2 0 0 1 0 sEffort10).st.caps 0 0 = -1 ∧
    ((scheduleSingleDate envEff2 0 0 1 0 sEffort10).st.backlogs.getD 0 []).getD 0 default
      = ⟨0, ['1'], 8, ['N']⟩ ∧
    capAfterClaim 1 (unitOfWorkClaim 1 1 10) = 0 ∧
    effortAfterClaim 10 2 (unitOfWorkClaim 1 1 10) = 8 ∧
    (-1 : ℚ) ≠ 0 := by
  refine ⟨?_, ?_, ?_, ?_, by norm_num⟩ <;>
    norm_num +decide [scheduleSingleDate, loopCond, blockedCheck, containsB, isHeadMatch,
      effAt, get2, set2, envEff2, sEffort10, capAfterClaim, unitOfWorkClaim,
      effortAfterClaim, List.getD, List.set, List.eraseIdx]

/-- C1 (amended): each non-blocked iteration of the single-day allocation
loop computes `workToDo = min(remainingEffort, efficiency(day) * 1,
efficiency(day) * remainingCapacity)` and subtracts that same quantity from
the task's remaining effort and from the pool's remaining capacity for the
day (parallelizability is not consulted); completion removes the task, records
the date and resets the cursor, otherwise the cursor advances with wrap. -/
theorem c1_theorem (env : Env) (d p bIdx fuel : Nat) (s : Sched)
    (e : BacklogEntry) (w : ℚ)
    (hcond : loopCond s p d = true)
    (he : (s.backlogs.getD p []).getD bIdx default = e)
    (hnb : blockedCheck s.backlogs e.constr = false)
    (hw : w = min e.effort (min (effAt env p d * 1) (effAt env p d * get2 s.caps p d))) :
    (e.effort - w = 0 →
      scheduleSingleDate env d p (fuel + 1) bIdx s =
        scheduleSingleDate env d p fuel 0
          ⟨s.backlogs.set p (((s.backlogs.getD p []).set bIdx
              { e with effort := e.effort - w }).eraseIdx bIdx),
           set2 s.caps p d (get2 s.caps p d - w), s.roadmap,
           s.deadlines.set p ((e.taskIdx, d) :: s.deadlines.getD p [])⟩) ∧
    (e.effort - w ≠ 0 →
      scheduleSingleDate env d p (fuel + 1) bIdx s =
        scheduleSingleDate env d p fuel
          (if bIdx + 1 < ((s.backlogs.getD p []).set bIdx
              { e with effort := e.effort - w }).length then bIdx + 1 else 0)
          ⟨s.backlogs.set p ((s.backlogs.getD p []).set bIdx
              { e with effort := e.effort - w }),
           set2 s.caps p d (get2 s.caps p d - w), s.roadmap, s.deadlines⟩) :=
  scheduleSingleDate_iter env d p bIdx fuel s e w hcond he hnb hw

/-- Witness for C1: efficiency 1, capacity 1, effort 10 — the iteration does
one unit of work, leaving effort 9 and capacity 0. -/
theorem c1_witness :
    loopCond sEffort10 0 0 = true ∧
    scheduleSingleDate envA 0 0 1 0 sEffort10 =
      scheduleSingleDate envA 0 0 0 0 ⟨[[⟨0, ['1'], 9, ['N']⟩]], [[0]], [[0]], [[]]⟩ := by
  refine ⟨by decide, ?_⟩
  have h := (c1_theorem envA 0 0 0 0 sEffort10 ⟨0, ['1'], 10, ['N']⟩ 1
    (by decide) (by decide) (by decide)
    (by norm_num [effAt, get2, envA, sEffort10])).2 (by norm_num)
  norm_num [sEffort10, set2, get2, envA, List.set, List.getD] at h
  exact h

/-! ### Claim C2 — no epsilon snapping; completion needs exact zero -/

/-- Counterexample to C2 as stated.  A task with remaining effort 1.005
labor-days, efficiency 1, capacity 1: after the single-day loop finishes
(`done = true`), the task's remaining effort is 0.005 — strictly below the
claimed 0.01 epsilon yet NOT snapped to zero: the task is still in the
backlog and no completion date was recorded.  scenario.py contains no epsilon;
line 279 tests `== 0` exactly. -/
theorem c2_counterexample :
    (scheduleSingleDate envA 0 0 3 0 sEps).done = true ∧
    (scheduleSingleDate envA 0 0 3 0 sEps).st.backlogs
      = [[⟨0, ['1'], mkRat 1 200, ['N']⟩]] ∧
    (scheduleSingleDate envA 0 0 3 0 sEps).st.deadlines = [[]] ∧
    (0 : ℚ) < mkRat 1 200 ∧ mkRat 1 200 < mkRat 1 100 := by
  refine ⟨?_, ?_, ?_, by decide, by decide⟩ <;>
    norm_num +decide [scheduleSingleDate, loopCond, blockedCheck, containsB, isHeadMatch,
      effAt, get2, set2, envA, sEps, List.getD, List.set, Rat.mkRat_eq_div]

/-- C2 (amended): the allocation loop snaps nothing to zero; a task's
completion date is recorded, and the task removed from the backlog, in an
iteration exactly when its updated remaining effort equals 0 in exact
arithmetic — regardless of any 0.01 threshold. -/
theorem c2_theorem (env : Env) (d p bIdx : Nat) (s : Sched)
    (e : BacklogEntry) (w : ℚ)
    (hcond : loopCond s p d = true)
    (he : (s.backlogs.getD p []).getD bIdx default = e)
    (hnb : blockedCheck s.backlogs e.constr = false)
    (hw : w = min e.effort (min (effAt env p d * 1) (effAt env p d * get2 s.caps p d)))
    (hp : p < s.backlogs.length) (hpd : p < s.deadlines.length)
    (hbl : bIdx < (s.backlogs.getD p []).length) :
    (e.effort - w = 0 →
      (scheduleSingleDate env d p 1 bIdx s).st.deadlines.getD p []
          = (e.taskIdx, d) :: s.deadlines.getD p [] ∧
      ((scheduleSingleDate env d p 1 bIdx s).st.backlogs.getD p []).length + 1
          = (s.backlogs.getD p []).length) ∧
    (e.effort - w ≠ 0 →
      (scheduleSingleDate env d p 1 bIdx s).st.deadlines = s.deadlines ∧
      ((scheduleSingleDate env d p 1 bIdx s).st.backlogs.getD p []).length
          = (s.backlogs.getD p []).length) := by
  have h := scheduleSingleDate_iter env d p bIdx 0 s e w hcond he hnb hw
  have hone : scheduleSingleDate env d p 1 bIdx s
      = scheduleSingleDate env d p (0 + 1) bIdx s := rfl
  constructor <;> intro h0
  · have h1 := h.1 h0
    have hd1 : (scheduleSingleDate env d p 1 bIdx s).st.deadlines
        = s.deadlines.set p ((e.taskIdx, d) :: s.deadlines.getD p []) := by
      rw [hone, h1]
      rfl
    have hb1 : (scheduleSingleDate env d p 1 bIdx s).st.backlogs
        = s.backlogs.set p (((s.backlogs.getD p []).set bIdx
            { e with effort := e.effort - w }).eraseIdx bIdx) := by
      rw [hone, h1]
      rfl
    constructor
    · rw [hd1]; exact getD_set_self _ _ _ _ hpd
    · rw [hb1, getD_set_self _ _ _ _ hp,
        List.length_eraseIdx_add_one (by rw [List.length_set]; exact hbl),
        List.length_set]
  · have h1 := h.2 h0
    have hd1 : (scheduleSingleDate env d p 1 bIdx s).st.deadlines = s.deadlines := by
      rw [hone, h1]
      rfl
    have hb1 : (scheduleSingleDate env d p 1 bIdx s).st.backlogs
        = s.backlogs.set p ((s.backlogs.getD p []).set bIdx
            { e with effort := e.effort - w }) := by
      rw [hone, h1]
      rfl
    constructor
    · exact hd1
    · rw [hb1, getD_set_self _ _ _ _ hp]
      exact List.length_set ..

/-- Witness for C2 (amended): a task of effort exactly 1 completes in one
iteration — the date is recorded and the backlog shrinks to empty. -/
theorem c2_witness :
    loopCond sOne 0 0 = true ∧
    (scheduleSingleDate envA 0 0 1 0 sOne).st.deadlines.getD 0 [] = [(0, 0)] ∧
    ((scheduleSingleDate envA 0 0 1 0 sOne).st.backlogs.getD 0 []).length + 1 = 1 := by
  have hz : (1 : ℚ) -
      min 1 (min (effAt envA 0 0 * 1) (effAt envA 0 0 * get2 sOne.caps 0 0)) = 0 := by
    norm_num [effAt, get2, envA, sOne]
  have h := (c2_theorem envA 0 0 0 sOne ⟨0, ['1'], 1, ['N']⟩ _
    (by decide) (by decide) (by decide) rfl
    (by decide) (by decide) (by decide)).1 hz
  exact ⟨by decide, h.1, h.2⟩

/-! ### Claim C8 (counterexample part) — negative remaining capacity -/

/-- Counterexample to C8 as stated: with efficiency 2, capacity 1, effort 10,
a single loop iteration drives the pool's remaining-capacity cell to -1. -/
theorem c8_counterexample :
    get2 (scheduleSingleDate envEff2 0 0 1 0 sEffort10).st.caps 0 0 = -1 ∧
    ¬ (0 ≤ (-1 : ℚ)) := by
  refine ⟨?_, by norm_num⟩
  norm_num +decide [scheduleSingleDate, loopCond, blockedCheck, containsB, isHeadMatch,
    effAt, get2, set2, envEff2, sEffort10, List.getD, List.set]

/-! ### Frame lemmas: what each scheduler phase leaves untouched -/

/-- Scheduling pool `q` never touches another pool's backlog or recorded
completion dates. -/
theorem scheduleSingleDate_other (env : Env) (d q p : Nat) (hqp : q ≠ p) :
    ∀ (fuel bIdx : Nat) (s : Sched),
      (scheduleSingleDate env d q fuel bIdx s).st.backlogs.getD p []
          = s.backlogs.getD p [] ∧
      (scheduleSingleDate env d q fuel bIdx s).st.deadlines.getD p []
          = s.deadlines.getD p []
  | 0, _, _ => ⟨rfl, rfl⟩
  | fuel + 1, bIdx, s => by
    rw [scheduleSingleDate]
    by_cases hc : loopCond s q d
    · rw [if_pos hc]
      simp only []
      by_cases hb : blockedCheck s.backlogs
          ((s.backlogs.getD q []).getD bIdx default).constr = true
      · rw [if_pos hb]; exact ⟨rfl, rfl⟩
      · rw [if_neg hb]
        split
        · refine ⟨?_, ?_⟩
          · rw [(scheduleSingleDate_other env d q p hqp fuel 0 _).1]
            exact getD_set_ne _ q p _ [] hqp
          · rw [(scheduleSingleDate_other env d q p hqp fuel 0 _).2]
            exact getD_set_ne _ q p _ [] hqp
        · refine ⟨?_, ?_⟩
          · rw [(scheduleSingleDate_other env d q p hqp fuel _ _).1]
            exact getD_set_ne _ q p _ [] hqp
          · rw [(scheduleSingleDate_other env d q p hqp fuel _ _).2]
    · rw [if_neg hc]; exact ⟨rfl, rfl⟩

/-- Unfolding one pool of an allocation pass. -/
theorem schedulePass_cons (env : Env) (d : Nat) (q : Nat) (t : List Nat)
    (fuel : Nat) (s : Sched) (ok : Bool) :
    schedulePass env d (q :: t) fuel s ok =
      schedulePass env d t fuel (scheduleSingleDate env d q fuel 0 s).st
        (ok && (scheduleSingleDate env d q fuel 0 s).done) := rfl

/-- The redistribution fold touches only the capacity and Roadmap tables. -/
theorem redistribFold_fields (lp d : Nat) (share : ℚ) :
    ∀ (l : List Nat) (s : Sched),
      (l.foldl (fun st name =>
        { st with
          caps := set2 st.caps lp d (get2 st.caps lp d + share),
          roadmap := set2 st.roadmap name d (get2 st.roadmap name d + share) }) s).backlogs
        = s.backlogs ∧
      (l.foldl (fun st name =>
        { st with
          caps := set2 st.caps lp d (get2 st.caps lp d + share),
          roadmap := set2 st.roadmap name d (get2 st.roadmap name d + share) }) s).deadlines
        = s.deadlines
  | [], _ => ⟨rfl, rfl⟩
  | _ :: t, _s => redistribFold_fields lp d share t _

/-- The redistribution step touches only the capacity and Roadmap tables. -/
theorem redistribute_fields (env : Env) (d : Nat) (names : List Nat) (s : Sched) :
    (redistribute env d names s).backlogs = s.backlogs ∧
    (redistribute env d names s).deadlines = s.deadlines := by
  unfold redistribute
  simp only []
  by_cases he : (allocatingFA env s).isEmpty = true
  · rw [if_pos he]; exact ⟨rfl, rfl⟩
  · rw [if_neg he]
    exact redistribFold_fields _ _ _ _ _

/-- A pool whose head-of-backlog task carries the empty blocking pattern gets
no work and loses no entries during a whole allocation pass, whichever pools
the pass visits. -/
theorem schedulePass_emptyPat (env : Env) (d fuel : Nat) (p : Nat) :
    ∀ (names : List Nat) (s : Sched) (ok : Bool),
      s.backlogs.getD p [] ≠ [] →
      ((s.backlogs.getD p []).getD 0 default).constr = [] →
      (schedulePass env d names fuel s ok).1.backlogs.getD p []
          = s.backlogs.getD p [] ∧
      (schedulePass env d names fuel s ok).1.deadlines.getD p []
          = s.deadlines.getD p []
  | [], _, _, _, _ => ⟨rfl, rfl⟩
  | q :: t, s, ok, hne, hcon => by
    rw [schedulePass_cons]
    by_cases hqp : q = p
    · subst hqp
      have hb : blockedCheck s.backlogs
          ((s.backlogs.getD q []).getD 0 default).constr = true := by
        rw [hcon]; exact blockedCheck_nil s.backlogs q hne
      have hst := (scheduleSingleDate_break env d q fuel s hb).1
      rw [hst]
      exact schedulePass_emptyPat env d fuel q t s _ hne hcon
    · have hframe := scheduleSingleDate_other env d q p hqp fuel 0 s
      have ih := schedulePass_emptyPat env d fuel p t
        (scheduleSingleDate env d q fuel 0 s).st
        (ok && (scheduleSingleDate env d q fuel 0 s).done)
        (by rw [hframe.1]; exact hne) (by rw [hframe.1]; exact hcon)
      exact ⟨ih.1.trans hframe.1, ih.2.trans hframe.2⟩

/-- Same statement over a whole scheduling day (both passes plus the
redistribution step). -/
theorem scheduleDay_emptyPat (env : Env) (names : List Nat) (fuel d : Nat)
    (p : Nat) (s : Sched) (ok : Bool)
    (hne : s.backlogs.getD p [] ≠ [])
    (hcon : ((s.backlogs.getD p []).getD 0 default).constr = []) :
    (scheduleDay env names fuel d s ok).1.backlogs.getD p []
        = s.backlogs.getD p [] ∧
    (scheduleDay env names fuel d s ok).1.deadlines.getD p []
        = s.deadlines.getD p [] := by
  unfold scheduleDay
  simp only []
  have h1 := schedulePass_emptyPat env d fuel p names s ok hne hcon
  have hr := redistribute_fields env d names (schedulePass env d names fuel s ok).1
  have h2 := schedulePass_emptyPat env d fuel p names
    (redistribute env d names (schedulePass env d names fuel s ok).1)
    (schedulePass env d names fuel s ok).2
    (by rw [hr.1, h1.1]; exact hne) (by rw [hr.1, h1.1]; exact hcon)
  constructor
  · rw [h2.1, hr.1, h1.1]
  · rw [h2.2, hr.2, h1.2]

/-! ### Redistribution-effect lemmas (for C4) -/

theorem allocatingFA_nodup (env : Env) (s : Sched) : (allocatingFA env s).Nodup := by
  unfold allocatingFA
  simp only []
  by_cases he : ((List.range env.pools.length).filter
      (fun i => (env.pools.getD i default).allocFree && !(s.backlogs.getD i []).isEmpty)).isEmpty = true
  · rw [if_pos he]
    exact (List.nodup_range _).filter _
  · rw [if_neg he]
    exact (List.nodup_range _).filter _

theorem redistribFold_effect (lp d : Nat) (share : ℚ) :
    ∀ (l : List Nat) (s : Sched),
      lp < s.caps.length → d < (s.caps.getD lp []).length →
      (get2 (l.foldl (fun st name =>
          { st with
            caps := set2 st.caps lp d (get2 st.caps lp d + share),
            roadmap := set2 st.roadmap name d (get2 st.roadmap name d + share) }) s).caps lp d
        = get2 s.caps lp d + (l.length : ℚ) * share) ∧
      (∀ q e, q ≠ lp ∨ e ≠ d →
        get2 (l.foldl (fun st name =>
          { st with
            caps := set2 st.caps lp d (get2 st.caps lp d + share),
            roadmap := set2 st.roadmap name d (get2 st.roadmap name d + share) }) s).caps q e
        = get2 s.caps q e) ∧
      (∀ q e, q ∉ l ∨ e ≠ d →
        get2 (l.foldl (fun st name =>
          { st with
            caps := set2 st.caps lp d (get2 st.caps lp d + share),
            roadmap := set2 st.roadmap name d (get2 st.roadmap name d + share) }) s).roadmap q e
        = get2 s.roadmap q e) ∧
      (l.Nodup → ∀ q, q ∈ l → q < s.roadmap.length → d < (s.roadmap.getD q []).length →
        get2 (l.foldl (fun st name =>
          { st with
            caps := set2 st.caps lp d (get2 st.caps lp d + share),
            roadmap := set2 st.roadmap name d (get2 st.roadmap name d + share) }) s).roadmap q d
        = get2 s.roadmap q d + share)
  | [], s, hp, hd => by
    refine ⟨by norm_num, fun q e _ => rfl, fun q e _ => rfl, fun _ q hq => absurd hq (List.not_mem_nil q)⟩
  | a :: t, s, hp, hd => by
    have hp1 : lp < (set2 s.caps lp d (get2 s.caps lp d + share)).length := by
      rw [length_set2_outer]; exact hp
    have hd1 : d < ((set2 s.caps lp d (get2 s.caps lp d + share)).getD lp []).length := by
      rw [length_set2]; exact hd
    have ih := redistribFold_effect lp d share t
      { s with
        caps := set2 s.caps lp d (get2 s.caps lp d + share),
        roadmap := set2 s.roadmap a d (get2 s.roadmap a d + share) } hp1 hd1
    refine ⟨?_, ?_, ?_, ?_⟩
    · rw [List.foldl_cons, ih.1]
      show get2 (set2 s.caps lp d (get2 s.caps lp d + share)) lp d + _ = _
      rw [get2_set2_self _ _ _ _ hp hd, List.length_cons]
      push_cast
      ring
    · intro q e hqe
      rw [List.foldl_cons, ih.2.1 q e hqe]
      exact get2_set2_ne _ _ _ _ _ _
        (by rcases hqe with h | h; exact Or.inl (Ne.symm h); exact Or.inr (Ne.symm h))
    · intro q e hqe
      have hqe' : q ∉ t ∨ e ≠ d := by
        rcases hqe with hq | he
        · exact Or.inl (fun hmem => hq (List.mem_cons_of_mem a hmem))
        · exact Or.inr he
      have hqa : q ≠ a ∨ e ≠ d := by
        rcases hqe with hq | he
        · exact Or.inl (fun hqa => hq (hqa ▸ List.mem_cons_self a t))
        · exact Or.inr he
      rw [List.foldl_cons, ih.2.2.1 q e hqe']
      show get2 (set2 s.roadmap a d (get2 s.roadmap a d + share)) q e = _
      exact get2_set2_ne _ _ _ _ _ _ (by rcases hqa with h | h; exact Or.inl (Ne.symm h); exact Or.inr (Ne.symm h))
    · intro hnd q hq hqr hdr
      have hnd' : t.Nodup := (List.nodup_cons.mp hnd).2
      have hna : a ∉ t := (List.nodup_cons.mp hnd).1
      rw [List.foldl_cons]
      rcases List.mem_cons.mp hq with hqa | hqt
      · subst hqa
        rw [ih.2.2.1 q d (Or.inl hna)]
        show get2 (set2 s.roadmap q d (get2 s.roadmap q d + share)) q d = _
        exact get2_set2_self _ _ _ _ hqr hdr
      · have hqa : q ≠ a := fun h => hna (h ▸ hqt)
        have := ih.2.2.2 hnd' q hqt
          (by rw [length_set2_outer]; exact hqr)
          (by rw [length_set2]; exact hdr)
        rw [this]
        show get2 (set2 s.roadmap a d (get2 s.roadmap a d + share)) q d + share = _
        rw [get2_set2_ne _ _ _ _ _ _ (Or.inl (Ne.symm hqa))]

/-! ### Claim C4 — the per-day surplus redistribution step -/

/-- C4 (amended): after the first pass, the unclaimed capacity for the day is
divided evenly over `allocatingFocusareas` — the pools flagged
`allocateFreeResources` that still have nonempty backlogs, or, when there are
none such, ALL pools flagged `allocateFreeResources` — and each recipient's
Roadmap cell for the day gains one share; but the remaining-capacity-today
counter credited is, for every share, the one of the LAST pool of the
first-pass loop (a stale loop variable), which therefore gains the whole
surplus, while every other pool's counter (including the recipients') is
unchanged. -/
theorem c4_theorem (env : Env) (names : List Nat) (s : Sched) (d : Nat)
    (halloc : allocatingFA env s ≠ [])
    (hlp : names.getLastD 0 < s.caps.length)
    (hd : d < (s.caps.getD (names.getLastD 0) []).length) :
    get2 (redistribute env d names s).caps (names.getLastD 0) d
        = get2 s.caps (names.getLastD 0) d
          + ((allocatingFA env s).length : ℚ)
            * (env.remaining.getD d 0 / ((allocatingFA env s).length : ℚ)) ∧
    (∀ q e, q ≠ names.getLastD 0 ∨ e ≠ d →
        get2 (redistribute env d names s).caps q e = get2 s.caps q e) ∧
    (∀ q e, q ∉ allocatingFA env s ∨ e ≠ d →
        get2 (redistribute env d names s).roadmap q e = get2 s.roadmap q e) ∧
    (∀ q, q ∈ allocatingFA env s →
        q < s.roadmap.length → d < (s.roadmap.getD q []).length →
        get2 (redistribute env d names s).roadmap q d
          = get2 s.roadmap q d
            + env.remaining.getD d 0 / ((allocatingFA env s).length : ℚ)) ∧
    (redistribute env d names s).backlogs = s.backlogs ∧
    (redistribute env d names s).deadlines = s.deadlines := by
  have hne : ¬ ((allocatingFA env s).isEmpty = true) := by
    cases hh : allocatingFA env s with
    | nil => exact absurd hh halloc
    | cons a t => simp [List.isEmpty]
  have heq : redistribute env d names s
      = (allocatingFA env s).foldl (fun st name =>
          { st with
            caps := set2 st.caps (names.getLastD 0) d
              (get2 st.caps (names.getLastD 0) d
                + env.remaining.getD d 0 / ((allocatingFA env s).length : ℚ)),
            roadmap := set2 st.roadmap name d
              (get2 st.roadmap name d
                + env.remaining.getD d 0 / ((allocatingFA env s).length : ℚ)) }) s := by
    unfold redistribute
    simp only []
    rw [if_neg hne]
  have hfold := redistribFold_effect (names.getLastD 0) d
    (env.remaining.getD d 0 / ((allocatingFA env s).length : ℚ))
    (allocatingFA env s) s hlp hd
  have hfields := redistribFold_fields (names.getLastD 0) d
    (env.remaining.getD d 0 / ((allocatingFA env s).length : ℚ))
    (allocatingFA env s) s
  rw [heq]
  exact ⟨hfold.1, hfold.2.1, hfold.2.2.1,
    fun q hq => hfold.2.2.2 (allocatingFA_nodup env s) q hq,
    hfields.1, hfields.2⟩

/-- Counterexample to C4 as stated.  Pool 0 absorbs surplus and has a nonempty
backlog; pool 1 does not absorb.  On the single day there are 2 units of
unclaimed capacity, so the claim predicts pool 0's remaining-capacity counter
and Roadmap cell both gain 2 and pool 1's stay 0.  The code instead adds the
share to pool 1's counter — `self._schedulableResources[projectname]` uses the
stale first-pass loop variable, i.e. the LAST scheduled pool — leaving
`caps = [[0], [2]]` (pool 0 unchanged, pool 1 credited) next to
`roadmap = [[2], [0]]`. -/
theorem c4_counterexample :
    allocatingFA envC4 sC4 = [0] ∧
    (scheduleDay envC4 [0, 1] 3 0 sC4 true).1.caps = [[0], [2]] ∧
    (scheduleDay envC4 [0, 1] 3 0 sC4 true).1.roadmap = [[2], [0]] ∧
    ([[0], [2]] : List (List ℚ)) ≠ [[2], [0]] := by
  have hA : allocatingFA envC4 sC4 = [0] := by decide
  have h1 : schedulePass envC4 0 [0, 1] 3 sC4 true = (sC4, true) := by decide
  have hred : redistribute envC4 0 [0, 1] sC4
      = ⟨sC4.backlogs, [[0], [2]], [[2], [0]], sC4.deadlines⟩ := by
    unfold redistribute
    simp only [hA]
    norm_num [get2, set2, envC4, sC4, List.getD, List.set, List.getLastD]
  have hday : scheduleDay envC4 [0, 1] 3 0 sC4 true
      = (⟨sC4.backlogs, [[0], [2]], [[2], [0]], sC4.deadlines⟩, true) := by
    show schedulePass envC4 0 [0, 1] 3
        (redistribute envC4 0 [0, 1] (schedulePass envC4 0 [0, 1] 3 sC4 true).1)
        (schedulePass envC4 0 [0, 1] 3 sC4 true).2 = _
    simp only [h1, hred]
    decide
  rw [hday]
  exact ⟨hA, rfl, rfl, by norm_num⟩


/-- Witness for C4 (amended): with pool 0 the only absorbing pool and pool 1
the last scheduled pool, the 2 surplus units land in pool 1's counter and in
pool 0's Roadmap cell, and pool 0's counter is unchanged. -/
theorem c4_witness :
    get2 (redistribute envC4 0 [0, 1] sC4).caps 1 0
        = get2 sC4.caps 1 0 + ((allocatingFA envC4 sC4).length : ℚ)
            * (envC4.remaining.getD 0 0 / ((allocatingFA envC4 sC4).length : ℚ)) ∧
    get2 (redistribute envC4 0 [0, 1] sC4).roadmap 0 0
        = get2 sC4.roadmap 0 0
          + envC4.remaining.getD 0 0 / ((allocatingFA envC4 sC4).length : ℚ) ∧
    get2 (redistribute envC4 0 [0, 1] sC4).caps 0 0 = get2 sC4.caps 0 0 := by
  have h := c4_theorem envC4 [0, 1] sC4 0 (by decide) (by decide) (by decide)
  exact ⟨h.1, h.2.2.2.1 0 (by decide) (by decide) (by decide),
    h.2.1 0 0 (Or.inl (by decide))⟩

/-! ### Claim C10 — the empty blocking pattern freezes its pool forever -/

/-- C10: if a pool's backlog head carries the empty-string blocking pattern
(the value the raw CSV adapter fills in for tasks without a declared
constraint), the blocking check matches every task number — in particular the
task's own entry in its own backlog — so the pool's allocation halts on every
scheduled day: over any sequence of days its backlog (efforts included) and
its recorded completion dates never change, so the head task never receives
work and never completes. -/
theorem c10_theorem (env : Env) (names : List Nat) (fuel : Nat) (p : Nat) :
    ∀ (ds : List Nat) (s : Sched) (ok : Bool),
      s.backlogs.getD p [] ≠ [] →
      ((s.backlogs.getD p []).getD 0 default).constr = [] →
      (scheduleForward env names fuel s ok ds).1.backlogs.getD p []
          = s.backlogs.getD p [] ∧
      (scheduleForward env names fuel s ok ds).1.deadlines.getD p []
          = s.deadlines.getD p []
  | [], _, _, _, _ => ⟨rfl, rfl⟩
  | d :: rest, s, ok, hne, hcon => by
    rw [scheduleForward]
    have hday := scheduleDay_emptyPat env names fuel d p s ok hne hcon
    by_cases hstop : allBacklogsEmpty (scheduleDay env names fuel d s ok).1 = true
    · rw [if_pos hstop]
      exact hday
    · rw [if_neg hstop]
      have ih := c10_theorem env names fuel p rest
        (scheduleDay env names fuel d s ok).1 (scheduleDay env names fuel d s ok).2
        (by rw [hday.1]; exact hne) (by rw [hday.1]; exact hcon)
      exact ⟨ih.1.trans hday.1, ih.2.trans hday.2⟩

/-- Witness for C10: a pool whose only task has the empty constraint cell;
after a two-day run its backlog and (empty) completion-date table are intact:
the task got no work and no completion date. -/
theorem c10_witness :
    sEmptyPat.backlogs.getD 0 [] ≠ [] ∧
    ((sEmptyPat.backlogs.getD 0 []).getD 0 default).constr = [] ∧
    (scheduleForward envA [0] 3 sEmptyPat true [0, 1]).1.backlogs.getD 0 []
        = [⟨0, ['1'], 5, []⟩] ∧
    (scheduleForward envA [0] 3 sEmptyPat true [0, 1]).1.deadlines.getD 0 [] = [] := by
  have h := c10_theorem envA [0] 3 0 [0, 1] sEmptyPat true (by decide) (by decide)
  exact ⟨by decide, by decide, h.1, h.2⟩

/-! ### Nonnegativity preservation (for C8) -/

/-- Efficiency values read off a pool configuration satisfying `EffLeOne`
stay within `[0, 1]` (out-of-range reads default to 0). -/
theorem effAt_bounds (env : Env) (p d : Nat) (heff : EffLeOne env) :
    0 ≤ effAt env p d ∧ effAt env p d ≤ 1 := by
  unfold effAt
  rcases getD_mem_or_eq env.pools p default with hm | he
  · rcases getD_mem_or_eq (env.pools.getD p default).eff d 0 with hx | hx
    · exact heff _ hm _ hx
    · rw [hx]; exact ⟨le_refl 0, by norm_num⟩
  · rw [he]
    show (0:ℚ) ≤ ([] : List ℚ).getD d 0 ∧ ([] : List ℚ).getD d 0 ≤ 1
    exact ⟨le_refl 0, by norm_num⟩

theorem get2_nonneg (m : List (List ℚ)) (p d : Nat) (h : NonnegTable m) :
    0 ≤ get2 m p d := by
  unfold get2
  rcases getD_mem_or_eq m p [] with hm | he
  · rcases getD_mem_or_eq (m.getD p []) d 0 with hx | hx
    · exact h _ hm _ hx
    · rw [hx]
  · rw [he]
    exact le_refl 0

theorem NonnegTable_set2 (m : List (List ℚ)) (p d : Nat) (v : ℚ)
    (h : NonnegTable m) (hv : 0 ≤ v) : NonnegTable (set2 m p d v) := by
  intro row hrow x hx
  rcases List.mem_or_eq_of_mem_set hrow with hrow' | hrow'
  · exact h _ hrow' _ hx
  · subst hrow'
    rcases List.mem_or_eq_of_mem_set hx with hx' | hx'
    · rcases getD_mem_or_eq m p [] with hm | hem
      · exact h _ hm _ hx'
      · rw [hem] at hx'; exact absurd hx' (List.not_mem_nil x)
    · subst hx'; exact hv

/-- One single-day allocation call keeps all capacities, Roadmap cells and
backlog efforts nonnegative when every efficiency is at most 1. -/
theorem scheduleSingleDate_nonneg (env : Env) (d p : Nat) (heff : EffLeOne env) :
    ∀ (fuel bIdx : Nat) (s : Sched), NonnegState s →
      NonnegState (scheduleSingleDate env d p fuel bIdx s).st
  | 0, _, _, hs => hs
  | fuel + 1, bIdx, s, hs => by
    rw [scheduleSingleDate]
    by_cases hc : loopCond s p d
    · rw [if_pos hc]
      simp only []
      by_cases hb : blockedCheck s.backlogs
          ((s.backlogs.getD p []).getD bIdx default).constr = true
      · rw [if_pos hb]; exact hs
      · rw [if_neg hb]
        have hblm : ∀ e ∈ s.backlogs.getD p [], (0:ℚ) ≤ e.effort := by
          intro e he
          rcases getD_mem_or_eq s.backlogs p [] with hm | hm
          · exact hs.2.2 _ hm _ he
          · rw [hm] at he; exact absurd he (List.not_mem_nil e)
        have he0 : (0:ℚ) ≤ ((s.backlogs.getD p []).getD bIdx default).effort := by
          rcases getD_mem_or_eq (s.backlogs.getD p []) bIdx default with hm | hm
          · exact hblm _ hm
          · rw [hm]
            exact le_refl 0
        have hcap0 : (0:ℚ) ≤ get2 s.caps p d := get2_nonneg _ _ _ hs.1
        have heb := effAt_bounds env p d heff
        have hwe : min ((s.backlogs.getD p []).getD bIdx default).effort
            (min (effAt env p d * 1) (effAt env p d * get2 s.caps p d))
            ≤ ((s.backlogs.getD p []).getD bIdx default).effort := min_le_left _ _
        have hwc : min ((s.backlogs.getD p []).getD bIdx default).effort
            (min (effAt env p d * 1) (effAt env p d * get2 s.caps p d))
            ≤ get2 s.caps p d := by
          refine le_trans (le_trans (min_le_right _ _) (min_le_right _ _)) ?_
          calc effAt env p d * get2 s.caps p d
              ≤ 1 * get2 s.caps p d := mul_le_mul_of_nonneg_right heb.2 hcap0
            _ = get2 s.caps p d := one_mul _
        have hcaps1 : NonnegTable (set2 s.caps p d (get2 s.caps p d -
            min ((s.backlogs.getD p []).getD bIdx default).effort
              (min (effAt env p d * 1) (effAt env p d * get2 s.caps p d)))) :=
          NonnegTable_set2 _ _ _ _ hs.1 (by linarith)
        have hbl1e : ∀ x ∈ (s.backlogs.getD p []).set bIdx
              { (s.backlogs.getD p []).getD bIdx default with
                effort := ((s.backlogs.getD p []).getD bIdx default).effort -
                  min ((s.backlogs.getD p []).getD bIdx default).effort
                    (min (effAt env p d * 1) (effAt env p d * get2 s.caps p d)) },
            (0:ℚ) ≤ x.effort := by
          intro x hx
          rcases List.mem_or_eq_of_mem_set hx with hx' | hx'
          · exact hblm _ hx'
          · subst hx'
            show (0:ℚ) ≤ _ - _
            linarith
        split
        · apply scheduleSingleDate_nonneg env d p heff fuel 0
          refine ⟨hcaps1, hs.2.1, ?_⟩
          intro bl hmem x hx
          rcases List.mem_or_eq_of_mem_set hmem with hmem' | hmem'
          · exact hs.2.2 _ hmem' _ hx
          · subst hmem'
            exact hbl1e _ (List.eraseIdx_subset _ _ hx)
        · apply scheduleSingleDate_nonneg env d p heff fuel _
          refine ⟨hcaps1, hs.2.1, ?_⟩
          intro bl hmem x hx
          rcases List.mem_or_eq_of_mem_set hmem with hmem' | hmem'
          · exact hs.2.2 _ hmem' _ hx
          · subst hmem'
            exact hbl1e _ hx
    · rw [if_neg hc]; exact hs

theorem schedulePass_nonneg (env : Env) (d fuel : Nat) (heff : EffLeOne env) :
    ∀ (names : List Nat) (s : Sched) (ok : Bool), NonnegState s →
      NonnegState (schedulePass env d names fuel s ok).1
  | [], _, _, hs => hs
  | q :: t, s, ok, hs => by
    rw [schedulePass_cons]
    exact schedulePass_nonneg env d fuel heff t _ _
      (scheduleSingleDate_nonneg env d q heff fuel 0 s hs)

theorem redistribFold_nonneg (lp d : Nat) (share : ℚ) (hsh : 0 ≤ share) :
    ∀ (l : List Nat) (s : Sched), NonnegTable s.caps → NonnegTable s.roadmap →
      NonnegTable ((l.foldl (fun st name =>
        { st with
          caps := set2 st.caps lp d (get2 st.caps lp d + share),
          roadmap := set2 st.roadmap name d (get2 st.roadmap name d + share) }) s).caps) ∧
      NonnegTable ((l.foldl (fun st name =>
        { st with
          caps := set2 st.caps lp d (get2 st.caps lp d + share),
          roadmap := set2 st.roadmap name d (get2 st.roadmap name d + share) }) s).roadmap)
  | [], _, h1, h2 => ⟨h1, h2⟩
  | a :: t, s, h1, h2 => by
    rw [List.foldl_cons]
    refine redistribFold_nonneg lp d share hsh t _
      (NonnegTable_set2 _ _ _ _ h1 ?_) (NonnegTable_set2 _ _ _ _ h2 ?_)
    · have := get2_nonneg s.caps lp d h1
      linarith
    · have := get2_nonneg s.roadmap a d h2
      linarith

theorem redistribute_nonneg (env : Env) (d : Nat) (names : List Nat) (s : Sched)
    (hrem : NonnegRemaining env) (hs : NonnegState s) :
    NonnegState (redistribute env d names s) := by
  have hsh : 0 ≤ env.remaining.getD d 0 / ((allocatingFA env s).length : ℚ) := by
    apply div_nonneg
    · rcases getD_mem_or_eq env.remaining d 0 with hm | hm
      · exact hrem _ hm
      · rw [hm]
    · exact Nat.cast_nonneg _
  unfold redistribute
  simp only []
  by_cases he : (allocatingFA env s).isEmpty = true
  · rw [if_pos he]; exact hs
  · rw [if_neg he]
    have hf := redistribFold_nonneg (names.getLastD 0) d
      (env.remaining.getD d 0 / ((allocatingFA env s).length : ℚ)) hsh
      (allocatingFA env s) s hs.1 hs.2.1
    have hfields := redistribFold_fields (names.getLastD 0) d
      (env.remaining.getD d 0 / ((allocatingFA env s).length : ℚ))
      (allocatingFA env s) s
    refine ⟨hf.1, hf.2, ?_⟩
    rw [hfields.1]
    exact hs.2.2

theorem scheduleDay_nonneg (env : Env) (names : List Nat) (fuel d : Nat)
    (s : Sched) (ok : Bool) (heff : EffLeOne env) (hrem : NonnegRemaining env)
    (hs : NonnegState s) : NonnegState (scheduleDay env names fuel d s ok).1 := by
  unfold scheduleDay
  simp only []
  exact schedulePass_nonneg env d fuel heff names _ _
    (redistribute_nonneg env d names _ hrem
      (schedulePass_nonneg env d fuel heff names s ok hs))

theorem scheduleForward_nonneg (env : Env) (names : List Nat) (fuel : Nat)
    (heff : EffLeOne env) (hrem : NonnegRemaining env) :
    ∀ (ds : List Nat) (s : Sched) (ok : Bool), NonnegState s →
      NonnegState (scheduleForward env names fuel s ok ds).1
  | [], _, _, hs => hs
  | d :: rest, s, ok, hs => by
    rw [scheduleForward]
    by_cases hstop : allBacklogsEmpty (scheduleDay env names fuel d s ok).1 = true
    · rw [if_pos hstop]
      exact scheduleDay_nonneg env names fuel d s ok heff hrem hs
    · rw [if_neg hstop]
      exact scheduleForward_nonneg env names fuel heff hrem rest _ _
        (scheduleDay_nonneg env names fuel d s ok heff hrem hs)

/-- C8 (amended): provided every pool's per-day efficiency lies in `[0, 1]`
and the precomputed remaining-resources series is nonnegative, nonnegativity
of every remaining-capacity cell, every Roadmap cell and every backlog
remaining-effort value is preserved by every scheduler step — each single-day
allocation call, each full scheduling day, and the whole day-advancing run.
(The unamended claim fails for efficiencies above 1: see the
counterexample.) -/
theorem c8_theorem (env : Env) (names : List Nat) (fuel : Nat)
    (heff : EffLeOne env) (hrem : NonnegRemaining env) :
    (∀ (d p bIdx : Nat) (s : Sched), NonnegState s →
        NonnegState (scheduleSingleDate env d p fuel bIdx s).st) ∧
    (∀ (d : Nat) (s : Sched) (ok : Bool), NonnegState s →
        NonnegState (scheduleDay env names fuel d s ok).1) ∧
    (∀ (ds : List Nat) (s : Sched) (ok : Bool), NonnegState s →
        NonnegState (scheduleForward env names fuel s ok ds).1) :=
  ⟨fun d p bIdx s hs => scheduleSingleDate_nonneg env d p heff fuel bIdx s hs,
   fun d s ok hs => scheduleDay_nonneg env names fuel d s ok heff hrem hs,
   fun ds s ok hs => scheduleForward_nonneg env names fuel heff hrem ds s ok hs⟩

/-- Witness for C8 (amended): a concrete one-pool, one-day run from a
nonnegative state stays nonnegative. -/
theorem c8_witness :
    EffLeOne envA ∧ NonnegRemaining envA ∧ NonnegState sOne ∧
    NonnegState (scheduleForward envA [0] 2 sOne true [0]).1 := by
  have h1 : EffLeOne envA := by unfold EffLeOne envA; decide
  have h2 : NonnegRemaining envA := by unfold NonnegRemaining envA; decide
  have h3 : NonnegState sOne := by unfold NonnegState NonnegTable sOne; decide
  exact ⟨h1, h2, h3, (c8_theorem envA [0] 2 h1 h2).2.2 [0] sOne true h3⟩

/-! ### Claim C7 — termination and exit condition of the day loop -/

theorem runDays_cons (env : Env) (names : List Nat) (fuel : Nat)
    (s : Sched) (ok : Bool) (d : Nat) (l : List Nat) :
    runDays env names fuel s ok (d :: l) =
      runDays env names fuel (scheduleDay env names fuel d s ok).1
        (scheduleDay env names fuel d s ok).2 l := rfl

/-- With efficiency 0 and positive capacity, one allocation-loop iteration on
the stuck state changes nothing, not even the cursor. -/
theorem scheduleSingleDate_zeroEff_step (fuel : Nat) :
    scheduleSingleDate envEff0 0 0 (fuel + 1) 0 sStuck
      = scheduleSingleDate envEff0 0 0 fuel 0 sStuck := by
  have h := (scheduleSingleDate_iter envEff0 0 0 0 fuel sStuck ⟨0, ['1'], 5, ['N']⟩
    (min (5:ℚ) (min (effAt envEff0 0 0 * 1) (effAt envEff0 0 0 * get2 sStuck.caps 0 0)))
    (by decide) (by decide) (by decide) rfl).2
    (by norm_num [effAt, get2, envEff0, sStuck])
  rw [h]
  norm_num [effAt, get2, set2, envEff0, sStuck, List.set, List.getD]

/-- The allocation loop on the stuck state never finishes, whatever the
fuel: the Python `while` loop diverges on this input. -/
theorem scheduleSingleDate_zeroEff_stuck :
    ∀ fuel : Nat, scheduleSingleDate envEff0 0 0 fuel 0 sStuck = ⟨sStuck, false⟩ := by
  intro fuel
  induction fuel with
  | zero => decide
  | succ n ih => rw [scheduleSingleDate_zeroEff_step n]; exact ih

/-- Counterexample to C7 as stated: with efficiency 0 on a weekday with
positive capacity and a nonempty backlog, the inner `while` loop of
`_scheduleSingleDate` repeats forever without changing the state (each
iteration does `min(effort, 0, 0) = 0` work and the capacity never drops), so
the day-advancing loop never finishes its first day: for EVERY fuel bound the
run reports an unfinished inner loop (`done = false`), refuting "for every
input, the day-advancing scheduling loop terminates". -/
theorem c7_counterexample :
    loopCond sStuck 0 0 = true ∧
    (scheduleSingleDate envEff0 0 0 1000000 0 sStuck).done = false ∧
    (scheduleSingleDate envEff0 0 0 1000000 0 sStuck).st = sStuck ∧
    scheduleForward envEff0 [0] 1000000 sStuck true [0] = (sStuck, false, []) := by
  have hstuck := scheduleSingleDate_zeroEff_stuck 1000000
  refine ⟨by decide, by rw [hstuck], by rw [hstuck], ?_⟩
  have hpass : schedulePass envEff0 0 [0] 1000000 sStuck true = (sStuck, false) := by
    rw [schedulePass_cons, hstuck]
    rfl
  have hpass2 : schedulePass envEff0 0 [0] 1000000 sStuck false = (sStuck, false) := by
    rw [schedulePass_cons, hstuck]
    rfl
  have hred : redistribute envEff0 0 [0] sStuck = sStuck := by decide
  have hday : scheduleDay envEff0 [0] 1000000 0 sStuck true = (sStuck, false) := by
    show schedulePass envEff0 0 [0] 1000000
        (redistribute envEff0 0 [0] (schedulePass envEff0 0 [0] 1000000 sStuck true).1)
        (schedulePass envEff0 0 [0] 1000000 sStuck true).2 = _
    simp only [hpass, hred, hpass2]
  rw [scheduleForward]
  simp only [hday]
  rfl

/-- Exit characterisation of the day-advancing loop: it processes some prefix
of the day list (nonempty when the timeline is), leaves exactly the days after
the stop, stops only because the days ran out or the backlogs all drained, and
at no earlier processed day were all backlogs empty. -/
theorem scheduleForward_exit (env : Env) (names : List Nat) (fuel : Nat) :
    ∀ (ds : List Nat) (s : Sched) (ok : Bool),
      ∃ n, n ≤ ds.length ∧
        (ds ≠ [] → 0 < n) ∧
        (scheduleForward env names fuel s ok ds).1
            = (runDays env names fuel s ok (ds.take n)).1 ∧
        (scheduleForward env names fuel s ok ds).2.1
            = (runDays env names fuel s ok (ds.take n)).2 ∧
        (scheduleForward env names fuel s ok ds).2.2 = ds.drop n ∧
        (ds.drop n = [] ∨
          allBacklogsEmpty (scheduleForward env names fuel s ok ds).1 = true) ∧
        (∀ m, 0 < m → m < n →
          allBacklogsEmpty (runDays env names fuel s ok (ds.take m)).1 = false)
  | [], s, ok =>
    ⟨0, Nat.le_refl 0, fun h => absurd rfl h, rfl, rfl, rfl, Or.inl rfl,
      fun m _ hmn => absurd hmn (Nat.not_lt_zero m)⟩
  | d :: rest, s, ok => by
    rw [scheduleForward]
    by_cases hstop : allBacklogsEmpty (scheduleDay env names fuel d s ok).1 = true
    · rw [if_pos hstop]
      exact ⟨1, Nat.succ_le_succ (Nat.zero_le _), fun _ => Nat.one_pos,
        rfl, rfl, rfl, Or.inr hstop,
        fun m hm hmn => absurd (Nat.lt_of_lt_of_le hmn (Nat.le_refl 1))
          (fun hh => Nat.lt_irrefl 0 (Nat.lt_of_lt_of_le hm (Nat.le_of_lt_succ hh)))⟩
    · rw [if_neg hstop]
      obtain ⟨n, hn, _, h1, h2, h3, h4, h5⟩ :=
        scheduleForward_exit env names fuel rest (scheduleDay env names fuel d s ok).1
          (scheduleDay env names fuel d s ok).2
      refine ⟨n + 1, Nat.succ_le_succ hn, fun _ => Nat.succ_pos n, ?_, ?_, ?_, ?_, ?_⟩
      · rw [h1, List.take_succ_cons, runDays_cons]
      · rw [h2, List.take_succ_cons, runDays_cons]
      · rw [h3, List.drop_succ_cons]
      · rcases h4 with h | h
        · exact Or.inl (by rw [List.drop_succ_cons]; exact h)
        · exact Or.inr h
      · intro m hm hmn
        cases m with
        | zero => exact absurd hm (Nat.lt_irrefl 0)
        | succ m' =>
          rw [List.take_succ_cons, runDays_cons]
          cases Nat.eq_zero_or_pos m' with
          | inl hz =>
            subst hz
            show allBacklogsEmpty (runDays env names fuel _ _ []).1 = false
            exact Bool.eq_false_iff.mpr hstop
          | inr hpos' =>
            exact h5 m' hpos' (Nat.lt_of_succ_lt_succ hmn)

/-! ### Claim C5 — backlog order and priority -/

/-- The C5 scenario evaluated day by day: the high-priority task (row 1)
completes on day index 1, the low-priority one (row 0) on day index 5, and
the run stops with day 6 unprocessed. -/
theorem c5_run :
    runSchedule envB (gitlabSortTasklist [tRowLowG0, tRowHighG0])
      [[1, 1, 1, 1, 1, 1, 1]] [[0, 0, 0, 0, 0, 0, 0]] 2 7 = (c5s6, true, [6]) := by
  have hsort : gitlabSortTasklist [tRowLowG0, tRowHighG0] = [tRowHighG0, tRowLowG0] := by
    decide
  have hinit : initState envB [tRowHighG0, tRowLowG0]
      [[1, 1, 1, 1, 1, 1, 1]] [[0, 0, 0, 0, 0, 0, 0]] = c5s0 := by decide
  have hrl : envB.pools.length = 1 := rfl
  have hr1 : List.range 1 = [0] := rfl
  have hr7 : List.range 7 = [0, 1, 2, 3, 4, 5, 6] := rfl
  have hd0 : scheduleDay envB [0] 2 0 c5s0 true = (c5s1, true) := by
    norm_num +decide [scheduleDay, schedulePass, redistribute, allocatingFA,
      scheduleSingleDate, loopCond, blockedCheck, containsB, isHeadMatch,
      effAt, get2, set2, envB, c5s0, c5s1, List.getD, List.set, List.foldl,
      List.range, List.filter, List.eraseIdx]
  have hd1 : scheduleDay envB [0] 2 1 c5s1 true = (c5s2, true) := by
    norm_num +decide [scheduleDay, schedulePass, redistribute, allocatingFA,
      scheduleSingleDate, loopCond, blockedCheck, containsB, isHeadMatch,
      effAt, get2, set2, envB, c5s1, c5s2, List.getD, List.set, List.foldl,
      List.range, List.filter, List.eraseIdx]
  have hd2 : scheduleDay envB [0] 2 2 c5s2 true = (c5s3, true) := by
    norm_num +decide [scheduleDay, schedulePass, redistribute, allocatingFA,
      scheduleSingleDate, loopCond, blockedCheck, containsB, isHeadMatch,
      effAt, get2, set2, envB, c5s2, c5s3, List.getD, List.set, List.foldl,
      List.range, List.filter, List.eraseIdx]
  have hd3 : scheduleDay envB [0] 2 3 c5s3 true = (c5s4, true) := by
    norm_num +decide [scheduleDay, schedulePass, redistribute, allocatingFA,
      scheduleSingleDate, loopCond, blockedCheck, containsB, isHeadMatch,
      effAt, get2, set2, envB, c5s3, c5s4, List.getD, List.set, List.foldl,
      List.range, List.filter, List.eraseIdx]
  have hd4 : scheduleDay envB [0] 2 4 c5s4 true = (c5s5, true) := by
    norm_num +decide [scheduleDay, schedulePass, redistribute, allocatingFA,
      scheduleSingleDate, loopCond, blockedCheck, containsB, isHeadMatch,
      effAt, get2, set2, envB, c5s4, c5s5, List.getD, List.set, List.foldl,
      List.range, List.filter, List.eraseIdx]
  have hd5 : scheduleDay envB [0] 2 5 c5s5 true = (c5s6, true) := by
    norm_num +decide [scheduleDay, schedulePass, redistribute, allocatingFA,
      scheduleSingleDate, loopCond, blockedCheck, containsB, isHeadMatch,
      effAt, get2, set2, envB, c5s5, c5s6, List.getD, List.set, List.foldl,
      List.range, List.filter, List.eraseIdx]
  unfold runSchedule
  rw [hsort, hrl, hr1, hr7, hinit]
  rw [scheduleForward]
  simp only [hd0]
  rw [if_neg (by decide)]
  rw [scheduleForward]
  simp only [hd1]
  rw [if_neg (by decide)]
  rw [scheduleForward]
  simp only [hd2]
  rw [if_neg (by decide)]
  rw [scheduleForward]
  simp only [hd3]
  rw [if_neg (by decide)]
  rw [scheduleForward]
  simp only [hd4]
  rw [if_neg (by decide)]
  rw [scheduleForward]
  simp only [hd5]
  rw [if_pos (by decide)]

/-- Counterexample to C5 as stated.  Two tasks with nonzero effort in one
pool, parsed by the GitlabCsv adapter: the first input row has priority 1
(low) in task-group 0, the second priority 3 (high) in task-group 1.  The
adapter sorts by task-group index FIRST, so the backlog starts with the
low-priority task: the claimed "ordered by priority descending" fails across
task-groups.  (The other adapters sort nothing at all.) -/
theorem c5_counterexample :
    (backlogInit (gitlabSortTasklist [tRowLowG0, tRowHighG1]) 0).map
        (fun e => e.taskIdx) = [0, 1] ∧
    tRowLowG0.priority = 1 ∧ tRowHighG1.priority = 3 ∧ (1 : Int) < 3 := by
  decide

/-- C5 (amended): each pool's backlog is initialised with exactly the rows of
nonzero effort in that pool, in task-list order — the Scenario applies no
sorting; the GitlabCsv adapter pre-sorts the task list by task-group index
ascending and then priority descending, so priority order holds within one
task-group; in particular, for two same-group tasks with efforts 4 and 2 at
priorities low and high and capacity 1 per day, the high-priority task
completes on day 1, strictly before the low-priority task's day 5, despite
appearing later in the input. -/
theorem c5_theorem :
    (∀ (tl : List TaskRow) (p : Nat),
      (backlogInit tl p).map (fun e => e.taskIdx)
        = (tl.filter (fun r => !(rowEffort r p == 0))).map (fun r => r.taskIdx)) ∧
    gitlabSortTasklist [tRowLowG0, tRowHighG0] = [tRowHighG0, tRowLowG0] ∧
    poolTaskDeadline (runSchedule envB (gitlabSortTasklist [tRowLowG0, tRowHighG0])
        [[1, 1, 1, 1, 1, 1, 1]] [[0, 0, 0, 0, 0, 0, 0]] 2 7).1 0 tRowHighG0.taskIdx
      = some 1 ∧
    poolTaskDeadline (runSchedule envB (gitlabSortTasklist [tRowLowG0, tRowHighG0])
        [[1, 1, 1, 1, 1, 1, 1]] [[0, 0, 0, 0, 0, 0, 0]] 2 7).1 0 tRowLowG0.taskIdx
      = some 5 ∧
    (1 : Nat) < 5 := by
  refine ⟨?_, by decide, ?_, ?_, by decide⟩
  · intro tl p
    unfold backlogInit
    rw [List.map_map]
    rfl
  · rw [c5_run]
    decide
  · rw [c5_run]
    decide

/-! ### Claim C9 — task-group deadlines

`_setTaskgroupDeadlines` takes, for each task-group and pool, the maximum of
the recorded completion dates over ALL member rows; the claim says the
restriction to rows with nonzero effort in the pool gives the same value.
The bridge is a run-level invariant: completion dates are only ever recorded
for tasks that entered the pool's backlog, and the backlog is initialised
from exactly the rows with nonzero effort. -/

theorem getD_of_ge {α : Type} (l : List α) (n : Nat) (d : α) (h : ¬ n < l.length) :
    l.getD n d = d := by
  induction l generalizing n with
  | nil => rfl
  | cons a t ih =>
    cases n with
    | zero => simp at h
    | succ n =>
      show t.getD n d = d
      exact ih n (fun hh => h (Nat.succ_lt_succ hh))

theorem lt_length_of_getD_ne {α : Type} (l : List (List α)) (p : Nat)
    (h : l.getD p [] ≠ []) : p < l.length := by
  by_contra hh
  exact h (getD_of_ge l p [] hh)

theorem getD_set_or {α : Type} (l : List α) (i j : Nat) (x d : α) :
    (l.set i x).getD j d = l.getD j d ∨ ((l.set i x).getD j d = x ∧ i = j) := by
  by_cases hij : i = j
  · subst hij
    by_cases hl : i < l.length
    · exact Or.inr ⟨getD_set_self l i x d hl, rfl⟩
    · rw [getD_set_out l i x hl]
      exact Or.inl rfl
  · exact Or.inl (getD_set_ne l i j x d hij)

/-- Through a single-day allocation call, every recorded completion date and
every backlog entry keeps originating from a task-list row with nonzero
effort in its pool. -/
theorem scheduleSingleDate_fromTasklist (env : Env) (tl : List TaskRow) (d p : Nat) :
    ∀ (fuel bIdx : Nat) (s : Sched), StateFromTasklist tl s →
      (bIdx < (s.backlogs.getD p []).length ∨ bIdx = 0) →
      StateFromTasklist tl (scheduleSingleDate env d p fuel bIdx s).st
  | 0, _, _, hs, _ => hs
  | fuel + 1, bIdx, s, hs, hbv => by
    rw [scheduleSingleDate]
    by_cases hc : loopCond s p d
    · rw [if_pos hc]
      simp only []
      by_cases hb : blockedCheck s.backlogs
          ((s.backlogs.getD p []).getD bIdx default).constr = true
      · rw [if_pos hb]; exact hs
      · rw [if_neg hb]
        have hne : s.backlogs.getD p [] ≠ [] := by
          intro hemp
          unfold loopCond at hc
          rw [hemp] at hc
          simp at hc
        have hlt : bIdx < (s.backlogs.getD p []).length := by
          rcases hbv with h | h
          · exact h
          · subst h
            cases hbl : s.backlogs.getD p [] with
            | nil => exact absurd hbl hne
            | cons a t => exact Nat.succ_pos _
        have hmem : (s.backlogs.getD p []).getD bIdx default ∈ s.backlogs.getD p [] := by
          rw [List.getD_eq_getElem _ default hlt]
          exact List.getElem_mem hlt
        have hrow := hs.2 p _ hmem
        have hpl : p < s.backlogs.length := lt_length_of_getD_ne s.backlogs p hne
        split
        · -- completion: record the date and drop the entry
          refine scheduleSingleDate_fromTasklist env tl d p fuel 0 _ ⟨?_, ?_⟩ (Or.inr rfl)
          · intro p' pr hpr
            rcases getD_set_or s.deadlines p p' _ [] with hcase | hcase
            · rw [hcase] at hpr
              exact hs.1 p' pr hpr
            · obtain ⟨hval, hpp⟩ := hcase
              subst hpp
              rw [hval] at hpr
              rcases List.mem_cons.mp hpr with hpr' | hpr'
              · subst hpr'
                exact hrow
              · exact hs.1 p pr hpr'
          · intro p' e' he'
            rcases getD_set_or s.backlogs p p' _ [] with hcase | hcase
            · rw [hcase] at he'
              exact hs.2 p' e' he'
            · obtain ⟨hval, hpp⟩ := hcase
              subst hpp
              rw [hval] at he'
              have he'' := List.eraseIdx_subset _ _ he'
              rcases List.mem_or_eq_of_mem_set he'' with h3 | h3
              · exact hs.2 p e' h3
              · subst h3
                exact hrow
        · -- no completion: update the entry, advance the cursor with wrap
          refine scheduleSingleDate_fromTasklist env tl d p fuel _ _ ⟨?_, ?_⟩ ?_
          · exact fun p' pr hpr => hs.1 p' pr hpr
          · intro p' e' he'
            rcases getD_set_or s.backlogs p p' _ [] with hcase | hcase
            · rw [hcase] at he'
              exact hs.2 p' e' he'
            · obtain ⟨hval, hpp⟩ := hcase
              subst hpp
              rw [hval] at he'
              rcases List.mem_or_eq_of_mem_set he' with h3 | h3
              · exact hs.2 p e' h3
              · subst h3
                exact hrow
          · show _ ∨ _
            rw [getD_set_self _ _ _ _ hpl]
            split
            · rename_i hcur
              exact Or.inl hcur
            · exact Or.inr rfl
    · rw [if_neg hc]; exact hs

theorem schedulePass_fromTasklist (env : Env) (tl : List TaskRow) (d fuel : Nat) :
    ∀ (names : List Nat) (s : Sched) (ok : Bool), StateFromTasklist tl s →
      StateFromTasklist tl (schedulePass env d names fuel s ok).1
  | [], _, _, hs => hs
  | q :: t, s, ok, hs => by
    rw [schedulePass_cons]
    exact schedulePass_fromTasklist env tl d fuel t _ _
      (scheduleSingleDate_fromTasklist env tl d q fuel 0 s hs (Or.inr rfl))

theorem redistribute_fromTasklist (env : Env) (tl : List TaskRow) (d : Nat)
    (names : List Nat) (s : Sched) (hs : StateFromTasklist tl s) :
    StateFromTasklist tl (redistribute env d names s) := by
  have hf := redistribute_fields env d names s
  constructor
  · intro p pr hpr
    rw [hf.2] at hpr
    exact hs.1 p pr hpr
  · intro p e he
    rw [hf.1] at he
    exact hs.2 p e he

theorem scheduleDay_fromTasklist (env : Env) (tl : List TaskRow)
    (names : List Nat) (fuel d : Nat) (s : Sched) (ok : Bool)
    (hs : StateFromTasklist tl s) :
    StateFromTasklist tl (scheduleDay env names fuel d s ok).1 := by
  unfold scheduleDay
  simp only []
  exact schedulePass_fromTasklist env tl d fuel names _ _
    (redistribute_fromTasklist env tl d names _
      (schedulePass_fromTasklist env tl d fuel names s ok hs))

theorem scheduleForward_fromTasklist (env : Env) (tl : List TaskRow)
    (names : List Nat) (fuel : Nat) :
    ∀ (ds : List Nat) (s : Sched) (ok : Bool), StateFromTasklist tl s →
      StateFromTasklist tl (scheduleForward env names fuel s ok ds).1
  | [], _, _, hs => hs
  | d :: rest, s, ok, hs => by
    rw [scheduleForward]
    by_cases hstop : allBacklogsEmpty (scheduleDay env names fuel d s ok).1 = true
    · rw [if_pos hstop]
      exact scheduleDay_fromTasklist env tl names fuel d s ok hs
    · rw [if_neg hstop]
      exact scheduleForward_fromTasklist env tl names fuel rest _ _
        (scheduleDay_fromTasklist env tl names fuel d s ok hs)

theorem getD_map_range {α : Type} (f : Nat → α) (n p : Nat) (d : α) (hp : p < n) :
    ((List.range n).map f).getD p d = f p := by
  have hlen : p < ((List.range n).map f).length := by
    rw [List.length_map, List.length_range]
    exact hp
  rw [List.getD_eq_getElem _ _ hlen]
  simp

/-- The freshly initialised state only contains backlog entries coming from
nonzero-effort rows, and no recorded completion dates at all. -/
theorem initState_fromTasklist (env : Env) (tl : List TaskRow)
    (caps0 roadmap0 : List (List ℚ)) :
    StateFromTasklist tl (initState env tl caps0 roadmap0) := by
  constructor
  · intro p pr hpr
    unfold initState at hpr
    simp only [] at hpr
    by_cases hp : p < env.pools.length
    · rw [getD_map_range _ _ _ _ hp] at hpr
      exact absurd hpr (List.not_mem_nil pr)
    · rw [getD_of_ge _ _ _ (by
        rw [List.length_map, List.length_range]
        exact hp)] at hpr
      exact absurd hpr (List.not_mem_nil pr)
  · intro p e he
    unfold initState at he
    simp only [] at he
    by_cases hp : p < env.pools.length
    · rw [getD_map_range _ _ _ _ hp] at he
      unfold backlogInit at he
      obtain ⟨r, hr, hre⟩ := List.mem_map.mp he
      have hfil := List.mem_filter.mp hr
      refine ⟨r, hfil.1, ?_, ?_⟩
      · rw [← hre]
      · have := hfil.2
        simp only [Bool.not_eq_true'] at this
        intro hz
        rw [show rowEffort r p = (0:ℚ) from hz] at this
        simp at this
    · rw [getD_of_ge _ _ _ (by
        rw [List.length_map, List.length_range]
        exact hp)] at he
      exact absurd he (List.not_mem_nil e)

/-- Rows mapped to `none` may be dropped from the group filter. -/
theorem filterMap_effort_filter (g p : Nat) (F : TaskRow → Option Nat) :
    ∀ (tl : List TaskRow), (∀ r ∈ tl, rowEffort r p = 0 → F r = none) →
      (tl.filter (fun r => r.groupIdx == g)).filterMap F
        = (tl.filter (fun r => r.groupIdx == g && !(rowEffort r p == 0))).filterMap F
  | [], _ => rfl
  | r :: rest, h => by
    have ih := filterMap_effort_filter g p F rest
      (fun r' hr' hz => h r' (List.mem_cons_of_mem r hr') hz)
    by_cases hg : (r.groupIdx == g) = true
    · by_cases hz : (rowEffort r p == 0) = true
      · have hFr : F r = none :=
          h r (List.mem_cons_self r rest) (beq_iff_eq.mp hz)
        simp [List.filter_cons, hg, hz, hFr, ih]
      · have hz' : (rowEffort r p == 0) = false := by
          cases hb2 : (rowEffort r p == 0) with
          | false => rfl
          | true => exact absurd hb2 hz
        cases hF : F r with
        | none => simp [List.filter_cons, hg, hz', List.filterMap_cons, hF, ih]
        | some v => simp [List.filter_cons, hg, hz', List.filterMap_cons, hF, ih]
    · have hg' : (r.groupIdx == g) = false := by
        cases hb2 : (r.groupIdx == g) with
        | false => rfl
        | true => exact absurd hb2 hg
      simp [List.filter_cons, hg', ih]

/-- C9: after a scheduling run, each task-group/pool deadline cell computed
by `_setTaskgroupDeadlines` equals the maximum recorded completion date over
the group's member tasks with nonzero effort in that pool (rows with zero
effort never acquire a completion date, provided row labels are unique), and
the cell is `none` — absent, not a sentinel — when no member row assigns the
pool nonzero effort. -/
theorem c9_theorem (env : Env) (tl : List TaskRow) (caps0 roadmap0 : List (List ℚ))
    (fuel nDays g p : Nat)
    (hnodup : (tl.map (fun r => r.taskIdx)).Nodup) :
    taskgroupDeadline tl (runSchedule env tl caps0 roadmap0 fuel nDays).1 g p
      = taskgroupDeadlineSpec tl (runSchedule env tl caps0 roadmap0 fuel nDays).1 g p ∧
    ((∀ r ∈ tl, r.groupIdx = g → rowEffort r p = 0) →
      taskgroupDeadline tl (runSchedule env tl caps0 roadmap0 fuel nDays).1 g p = none) := by
  have hinv : StateFromTasklist tl (runSchedule env tl caps0 roadmap0 fuel nDays).1 :=
    scheduleForward_fromTasklist env tl (List.range env.pools.length) fuel
      (List.range nDays) _ true (initState_fromTasklist env tl caps0 roadmap0)
  have key : ∀ r ∈ tl, rowEffort r p = 0 →
      poolTaskDeadline (runSchedule env tl caps0 roadmap0 fuel nDays).1 p r.taskIdx
        = none := by
    intro r hr hz
    unfold poolTaskDeadline
    rw [List.find?_eq_none.mpr ?hnone]
    · rfl
    case hnone =>
      intro pr hpr hbeq
      obtain ⟨r', hr', hidx, hnz⟩ := hinv.1 p pr hpr
      have hpr1 : pr.1 = r.taskIdx := beq_iff_eq.mp hbeq
      have hrr : r' = r :=
        List.inj_on_of_nodup_map hnodup hr' hr (by rw [hidx, hpr1])
      rw [hrr] at hnz
      exact hnz hz
  have hmain : taskgroupDeadline tl (runSchedule env tl caps0 roadmap0 fuel nDays).1 g p
      = taskgroupDeadlineSpec tl (runSchedule env tl caps0 roadmap0 fuel nDays).1 g p := by
    unfold taskgroupDeadline taskgroupDeadlineSpec
    rw [filterMap_effort_filter g p _ tl key]
  refine ⟨hmain, ?_⟩
  intro hall
  rw [hmain]
  unfold taskgroupDeadlineSpec
  rw [List.filter_eq_nil_iff.mpr ?hnil]
  · rfl
  case hnil =>
    intro r hr hcontra
    obtain ⟨hA, hB⟩ := (Bool.and_eq_true _ _).mp hcontra
    have hz : rowEffort r p = 0 := hall r hr (beq_iff_eq.mp hA)
    have hBt : (rowEffort r p == 0) = true := beq_iff_eq.mpr hz
    rw [hBt] at hB
    exact absurd hB (by decide)

/-- Witness for C9: the two-task fixture with distinct row labels. -/
theorem c9_witness :
    (([tRowHighG0, tRowLowG0].map (fun r => r.taskIdx)).Nodup) ∧
    (taskgroupDeadline [tRowHighG0, tRowLowG0]
        (runSchedule envB [tRowHighG0, tRowLowG0] [[1]] [[0]] 1 1).1 0 0
      = taskgroupDeadlineSpec [tRowHighG0, tRowLowG0]
        (runSchedule envB [tRowHighG0, tRowLowG0] [[1]] [[0]] 1 1).1 0 0) ∧
    ((∀ r ∈ [tRowHighG0, tRowLowG0], r.groupIdx = 1 → rowEffort r 0 = 0) →
      taskgroupDeadline [tRowHighG0, tRowLowG0]
          (runSchedule envB [tRowHighG0, tRowLowG0] [[1]] [[0]] 1 1).1 1 0 = none) := by
  have hnd : (([tRowHighG0, tRowLowG0].map (fun r => r.taskIdx)).Nodup) := by decide
  exact ⟨hnd,
    (c9_theorem envB [tRowHighG0, tRowLowG0] [[1]] [[0]] 1 1 0 0 hnd).1,
    (c9_theorem envB [tRowHighG0, tRowLowG0] [[1]] [[0]] 1 1 1 0 hnd).2⟩


/-! ### Claim C7, termination half — fuel bounds under unit-or-better efficiency

With every relevant per-day efficiency at least one nominal labor unit and
every outstanding effort strictly positive, each single-day loop halts on its
own: every non-blocked iteration either removes a backlog entry or consumes at
least one unit of the day's remaining capacity.  The lemmas below turn that
measure into an explicit fuel bound and propagate it through a pass, a day and
the whole day-advancing run. -/

/-- Erasing the index that was just overwritten gives the same list as erasing
it from the original. -/
theorem eraseIdx_set_eq {α : Type} :
    ∀ (l : List α) (i : Nat) (v : α), (l.set i v).eraseIdx i = l.eraseIdx i
  | [], _, _ => rfl
  | _ :: _, 0, _ => rfl
  | a :: t, i + 1, v => congrArg (a :: ·) (eraseIdx_set_eq t i v)

/-- If the loop condition already fails, the loop reports completion at any
fuel. -/
theorem scheduleSingleDate_done_of_condFalse (env : Env) (d p fuel bIdx : Nat)
    (s : Sched) (hc : loopCond s p d = false) :
    (scheduleSingleDate env d p fuel bIdx s).done = true := by
  cases fuel with
  | zero => show (!loopCond s p d) = true; rw [hc]; rfl
  | succ n =>
    rw [scheduleSingleDate, if_neg (by rw [hc]; exact Bool.false_ne_true)]

/-- Extra fuel does not change the result of a loop that already exited on
its own. -/
theorem scheduleSingleDate_mono (env : Env) (d p : Nat) :
    ∀ (fuel k bIdx : Nat) (s : Sched),
      (scheduleSingleDate env d p fuel bIdx s).done = true →
      scheduleSingleDate env d p (fuel + k) bIdx s = scheduleSingleDate env d p fuel bIdx s
  | 0, k, bIdx, s, hd => by
    have hd' : (!loopCond s p d) = true := hd
    have hc : loopCond s p d = false := by
      cases hcv : loopCond s p d with
      | false => rfl
      | true => rw [hcv] at hd'; exact absurd hd' (by decide)
    cases k with
    | zero => rfl
    | succ kk =>
      rw [Nat.zero_add, scheduleSingleDate, scheduleSingleDate,
        if_neg (by rw [hc]; exact Bool.false_ne_true)]
      rw [hc]
      rfl
  | fuel + 1, k, bIdx, s, hd => by
    have harith : fuel + 1 + k = (fuel + k) + 1 := by omega
    rw [harith]
    rw [scheduleSingleDate] at hd
    by_cases hc : loopCond s p d
    · rw [if_pos hc] at hd
      rw [scheduleSingleDate, scheduleSingleDate, if_pos hc, if_pos hc]
      simp only [] at hd ⊢
      by_cases hb : blockedCheck s.backlogs
          ((s.backlogs.getD p []).getD bIdx default).constr = true
      · rw [if_pos hb, if_pos hb]
      · rw [if_neg hb] at hd
        rw [if_neg hb, if_neg hb]
        split at hd
        · rename_i hz
          rw [if_pos hz, if_pos hz]
          exact scheduleSingleDate_mono env d p fuel k 0 _ hd
        · rename_i hz
          rw [if_neg hz, if_neg hz]
          exact scheduleSingleDate_mono env d p fuel k _ _ hd
    · rw [scheduleSingleDate, scheduleSingleDate, if_neg hc, if_neg hc]

/-- Strictly positive remaining efforts stay strictly positive: an entry is
only updated by subtracting at most its own effort, and it is removed the
moment the subtraction reaches exactly zero. -/
theorem scheduleSingleDate_pos (env : Env) (d p : Nat) :
    ∀ (fuel bIdx : Nat) (s : Sched), PosBacklogs s →
      PosBacklogs (scheduleSingleDate env d p fuel bIdx s).st
  | 0, _, _, hs => hs
  | fuel + 1, bIdx, s, hs => by
    rw [scheduleSingleDate]
    by_cases hc : loopCond s p d
    · rw [if_pos hc]
      simp only []
      by_cases hb : blockedCheck s.backlogs
          ((s.backlogs.getD p []).getD bIdx default).constr = true
      · rw [if_pos hb]; exact hs
      · rw [if_neg hb]
        have hwe : min ((s.backlogs.getD p []).getD bIdx default).effort
            (min (effAt env p d * 1) (effAt env p d * get2 s.caps p d))
            ≤ ((s.backlogs.getD p []).getD bIdx default).effort := min_le_left _ _
        split
        · apply scheduleSingleDate_pos env d p fuel 0
          intro p' e' he'
          rcases getD_set_or s.backlogs p p' _ [] with hcase | hcase
          · rw [hcase] at he'
            exact hs p' e' he'
          · obtain ⟨hval, hpp⟩ := hcase
            subst hpp
            rw [hval, eraseIdx_set_eq] at he'
            exact hs p e' (List.eraseIdx_subset _ _ he')
        · rename_i hz
          apply scheduleSingleDate_pos env d p fuel _
          intro p' e' he'
          rcases getD_set_or s.backlogs p p' _ [] with hcase | hcase
          · rw [hcase] at he'
            exact hs p' e' he'
          · obtain ⟨hval, hpp⟩ := hcase
            subst hpp
            rw [hval] at he'
            rcases List.mem_or_eq_of_mem_set he' with h3 | h3
            · exact hs p e' h3
            · subst h3
              show (0:ℚ) < _ - _
              rcases lt_or_eq_of_le hwe with hlt | heq
              · linarith
              · exact absurd (by rw [heq]; ring) hz
    · rw [if_neg hc]; exact hs

/-- A nonpositive remaining capacity falsifies the loop condition. -/
theorem loopCond_eq_false_of_cap (s : Sched) (p d : Nat)
    (h : get2 s.caps p d ≤ 0) : loopCond s p d = false := by
  unfold loopCond
  rw [decide_eq_false (not_lt.mpr h)]
  rfl

/-- With per-day efficiency at least one nominal unit and strictly positive
remaining efforts, the single-day loop halts as soon as its fuel covers the
backlog length plus the ceiling of the remaining capacity: every non-blocked
iteration either removes an entry or consumes at least one capacity unit (or
exhausts the capacity outright), and a blocked or exhausted iteration stops
at once. -/
theorem singleDate_term (env : Env) (d p : Nat) (heff : 1 ≤ effAt env p d) :
    ∀ (μ fuel bIdx : Nat) (s : Sched),
      (∀ e ∈ s.backlogs.getD p [], 0 < e.effort) →
      (bIdx < (s.backlogs.getD p []).length ∨ bIdx = 0) →
      (s.backlogs.getD p []).length + (Int.ceil (get2 s.caps p d)).toNat ≤ μ →
      μ ≤ fuel →
      (scheduleSingleDate env d p fuel bIdx s).done = true
  | 0, fuel, bIdx, s, _, _, hμ, _ => by
    have hlen : (s.backlogs.getD p []).length = 0 := by omega
    have hbl : s.backlogs.getD p [] = [] := List.length_eq_zero.mp hlen
    apply scheduleSingleDate_done_of_condFalse
    unfold loopCond
    rw [hbl]
    simp
  | μ + 1, fuel, bIdx, s, hpos, hbv, hμ, hf => by
    cases fuel with
    | zero => exact absurd hf (by omega)
    | succ f =>
      rw [scheduleSingleDate]
      by_cases hc : loopCond s p d
      · rw [if_pos hc]
        simp only []
        by_cases hb : blockedCheck s.backlogs
            ((s.backlogs.getD p []).getD bIdx default).constr = true
        · rw [if_pos hb]
        · rw [if_neg hb]
          have hcc := hc
          unfold loopCond at hcc
          obtain ⟨h12, h3⟩ := (Bool.and_eq_true _ _).mp hcc
          obtain ⟨h1, h2⟩ := (Bool.and_eq_true _ _).mp h12
          have hcap : 0 < get2 s.caps p d := of_decide_eq_true h1
          have hcne : s.caps.getD p [] ≠ [] := by
            intro hemp
            rw [hemp] at h2
            exact absurd h2 (by decide)
          have hbne : s.backlogs.getD p [] ≠ [] := by
            intro hemp
            rw [hemp] at h3
            exact absurd h3 (by decide)
          have hlt : bIdx < (s.backlogs.getD p []).length := by
            rcases hbv with h | h
            · exact h
            · subst h
              cases hbl : s.backlogs.getD p [] with
              | nil => exact absurd hbl hbne
              | cons a t => exact Nat.succ_pos _
          have hmem : (s.backlogs.getD p []).getD bIdx default
              ∈ s.backlogs.getD p [] := by
            rw [List.getD_eq_getElem _ default hlt]
            exact List.getElem_mem hlt
          have hepos : 0 < ((s.backlogs.getD p []).getD bIdx default).effort :=
            hpos _ hmem
          have hpl : p < s.backlogs.length := lt_length_of_getD_ne s.backlogs p hbne
          have hpc : p < s.caps.length := lt_length_of_getD_ne s.caps p hcne
          have hdc : d < (s.caps.getD p []).length := by
            by_contra hh
            unfold get2 at hcap
            rw [getD_of_ge _ _ _ hh] at hcap
            exact absurd hcap (lt_irrefl 0)
          have heffpos : (0:ℚ) < effAt env p d := lt_of_lt_of_le one_pos heff
          have hw0 : 0 < min ((s.backlogs.getD p []).getD bIdx default).effort
              (min (effAt env p d * 1) (effAt env p d * get2 s.caps p d)) := by
            refine lt_min hepos (lt_min (by nlinarith) (by nlinarith))
          have hwe : min ((s.backlogs.getD p []).getD bIdx default).effort
              (min (effAt env p d * 1) (effAt env p d * get2 s.caps p d))
              ≤ ((s.backlogs.getD p []).getD bIdx default).effort := min_le_left _ _
          have hcapval : get2 (set2 s.caps p d (get2 s.caps p d -
              min ((s.backlogs.getD p []).getD bIdx default).effort
                (min (effAt env p d * 1) (effAt env p d * get2 s.caps p d)))) p d
              = get2 s.caps p d -
                min ((s.backlogs.getD p []).getD bIdx default).effort
                  (min (effAt env p d * 1) (effAt env p d * get2 s.caps p d)) :=
            get2_set2_self _ _ _ _ hpc hdc
          split
          · -- the cursor entry is finished and removed: the backlog shrinks
            apply singleDate_term env d p heff μ f 0 _ ?_ (Or.inr rfl) ?_ (by omega)
            · intro e he
              rw [getD_set_self _ _ _ _ hpl, eraseIdx_set_eq] at he
              exact hpos _ (List.eraseIdx_subset _ _ he)
            · rw [getD_set_self _ _ _ _ hpl, eraseIdx_set_eq, hcapval]
              have hlen : ((s.backlogs.getD p []).eraseIdx bIdx).length + 1
                  = (s.backlogs.getD p []).length :=
                List.length_eraseIdx_add_one hlt
              have hcle : Int.ceil (get2 s.caps p d -
                  min ((s.backlogs.getD p []).getD bIdx default).effort
                    (min (effAt env p d * 1) (effAt env p d * get2 s.caps p d)))
                  ≤ Int.ceil (get2 s.caps p d) :=
                Int.ceil_le_ceil (by linarith)
              omega
          · -- no removal: either a full capacity unit is consumed, or the
            -- capacity is exhausted and the next iteration stops
            rename_i hz
            have hwlt : min ((s.backlogs.getD p []).getD bIdx default).effort
                (min (effAt env p d * 1) (effAt env p d * get2 s.caps p d))
                < ((s.backlogs.getD p []).getD bIdx default).effort :=
              lt_of_le_of_ne hwe (fun heq => hz (by rw [heq]; exact sub_self _))
            have hmc : min ((s.backlogs.getD p []).getD bIdx default).effort
                (min (effAt env p d * 1) (effAt env p d * get2 s.caps p d))
                = min (effAt env p d * 1) (effAt env p d * get2 s.caps p d) := by
              rcases min_choice ((s.backlogs.getD p []).getD bIdx default).effort
                  (min (effAt env p d * 1) (effAt env p d * get2 s.caps p d)) with
                hch | hch
              · rw [hch] at hwlt
                exact absurd hwlt (lt_irrefl _)
              · exact hch
            by_cases hcap1 : (1:ℚ) ≤ get2 s.caps p d
            · -- a full unit of capacity is consumed: the ceiling drops
              have hwge : (1:ℚ) ≤ min ((s.backlogs.getD p []).getD bIdx default).effort
                  (min (effAt env p d * 1) (effAt env p d * get2 s.caps p d)) := by
                rw [hmc]
                exact le_min (by nlinarith) (by nlinarith)
              have hceil : Int.ceil (get2 s.caps p d -
                  min ((s.backlogs.getD p []).getD bIdx default).effort
                    (min (effAt env p d * 1) (effAt env p d * get2 s.caps p d)))
                  ≤ Int.ceil (get2 s.caps p d) - 1 := by
                have hstep : get2 s.caps p d -
                    min ((s.backlogs.getD p []).getD bIdx default).effort
                      (min (effAt env p d * 1) (effAt env p d * get2 s.caps p d))
                    ≤ get2 s.caps p d - 1 := by linarith
                calc Int.ceil (get2 s.caps p d -
                      min ((s.backlogs.getD p []).getD bIdx default).effort
                        (min (effAt env p d * 1) (effAt env p d * get2 s.caps p d)))
                    ≤ Int.ceil (get2 s.caps p d - 1) := Int.ceil_le_ceil hstep
                  _ = Int.ceil (get2 s.caps p d) - 1 := Int.ceil_sub_one _
              have hcpos : 0 < Int.ceil (get2 s.caps p d) := Int.ceil_pos.mpr hcap
              apply singleDate_term env d p heff μ f _ _ ?_ ?_ ?_ (by omega)
              · intro e he
                rw [getD_set_self _ _ _ _ hpl] at he
                rcases List.mem_or_eq_of_mem_set he with h4 | h4
                · exact hpos _ h4
                · subst h4
                  show (0:ℚ) < _ - _
                  linarith
              · rw [getD_set_self _ _ _ _ hpl]
                split
                · rename_i hcur
                  exact Or.inl hcur
                · exact Or.inr rfl
              · rw [getD_set_self _ _ _ _ hpl, List.length_set, hcapval]
                omega
            · -- the whole remaining capacity is consumed: the loop stops next
              have hwcap : get2 s.caps p d
                  ≤ min ((s.backlogs.getD p []).getD bIdx default).effort
                    (min (effAt env p d * 1) (effAt env p d * get2 s.caps p d)) := by
                rw [hmc]
                push_neg at hcap1
                exact le_min (by nlinarith) (by nlinarith)
              apply scheduleSingleDate_done_of_condFalse
              exact loopCond_eq_false_of_cap _ p d (by rw [hcapval]; linarith)
      · rw [if_neg hc]

/-- Wrapper: some fuel makes a single-day call finish, and more fuel does not
change its result. -/
theorem singleDate_term_ex (env : Env) (d p : Nat) (heff : 1 ≤ effAt env p d)
    (s : Sched) (hp : ∀ e ∈ s.backlogs.getD p [], 0 < e.effort) :
    ∃ f₁, ∀ k, scheduleSingleDate env d p (f₁ + k) 0 s
        = scheduleSingleDate env d p f₁ 0 s ∧
      (scheduleSingleDate env d p f₁ 0 s).done = true := by
  refine ⟨(s.backlogs.getD p []).length + (Int.ceil (get2 s.caps p d)).toNat,
    fun k => ⟨?_, ?_⟩⟩
  · exact scheduleSingleDate_mono env d p _ k 0 s
      (singleDate_term env d p heff _ _ 0 s hp (Or.inr rfl) (le_refl _) (le_refl _))
  · exact singleDate_term env d p heff _ _ 0 s hp (Or.inr rfl) (le_refl _) (le_refl _)

/-- Positivity of remaining efforts through an allocation pass. -/
theorem schedulePass_pos (env : Env) (d fuel : Nat) :
    ∀ (names : List Nat) (s : Sched) (ok : Bool), PosBacklogs s →
      PosBacklogs (schedulePass env d names fuel s ok).1
  | [], _, _, hp => hp
  | q :: t, s, _, hp => by
    rw [schedulePass_cons]
    exact schedulePass_pos env d fuel t _ _ (scheduleSingleDate_pos env d q fuel 0 s hp)

/-- Positivity of remaining efforts through the redistribution step. -/
theorem redistribute_pos (env : Env) (d : Nat) (names : List Nat) (s : Sched)
    (hp : PosBacklogs s) : PosBacklogs (redistribute env d names s) := by
  intro p e he
  rw [(redistribute_fields env d names s).1] at he
  exact hp p e he

/-- Positivity of remaining efforts through a whole scheduling day. -/
theorem scheduleDay_pos (env : Env) (names : List Nat) (fuel d : Nat)
    (s : Sched) (ok : Bool) (hp : PosBacklogs s) :
    PosBacklogs (scheduleDay env names fuel d s ok).1 := by
  unfold scheduleDay
  simp only []
  exact schedulePass_pos env d fuel names _ _
    (redistribute_pos env d names _ (schedulePass_pos env d fuel names s ok hp))

/-- The state component of an allocation pass does not depend on the incoming
completion flag. -/
theorem schedulePass_fst_ok (env : Env) (d fuel : Nat) :
    ∀ (names : List Nat) (s : Sched) (ok : Bool),
      (schedulePass env d names fuel s ok).1 = (schedulePass env d names fuel s true).1
  | [], _, _ => rfl
  | q :: t, s, ok => by
    rw [schedulePass_cons, schedulePass_cons]
    exact (schedulePass_fst_ok env d fuel t _ _).trans
      (schedulePass_fst_ok env d fuel t _ _).symm

/-- With enough fuel, a whole allocation pass stabilises and reports all its
single-day loops as completed. -/
theorem schedulePass_term (env : Env) (d : Nat) :
    ∀ (names : List Nat) (s : Sched),
      (∀ q ∈ names, 1 ≤ effAt env q d) → PosBacklogs s →
      ∃ f₀, ∀ k ok,
        schedulePass env d names (f₀ + k) s ok = schedulePass env d names f₀ s ok ∧
        (schedulePass env d names f₀ s ok).2 = ok
  | [], _, _, _ => ⟨0, fun _ _ => ⟨rfl, rfl⟩⟩
  | q :: t, s, hq, hp => by
    have heffq : 1 ≤ effAt env q d := hq q (List.mem_cons_self q t)
    obtain ⟨f₁, hf₁⟩ := singleDate_term_ex env d q heffq s (hp q)
    have hp' : PosBacklogs (scheduleSingleDate env d q f₁ 0 s).st :=
      scheduleSingleDate_pos env d q f₁ 0 s hp
    obtain ⟨f₂, hf₂⟩ := schedulePass_term env d t (scheduleSingleDate env d q f₁ 0 s).st
      (fun q' hq' => hq q' (List.mem_cons_of_mem _ hq')) hp'
    refine ⟨f₁ + f₂, fun k ok => ?_⟩
    have hs1 : scheduleSingleDate env d q (f₁ + f₂ + k) 0 s
        = scheduleSingleDate env d q f₁ 0 s := by
      have h := (hf₁ (f₂ + k)).1
      rwa [← Nat.add_assoc] at h
    have hs0 : scheduleSingleDate env d q (f₁ + f₂) 0 s
        = scheduleSingleDate env d q f₁ 0 s := (hf₁ f₂).1
    constructor
    · rw [schedulePass_cons, schedulePass_cons, hs1, hs0]
      have hL := (hf₂ (f₁ + k) (ok && (scheduleSingleDate env d q f₁ 0 s).done)).1
      have hR := (hf₂ f₁ (ok && (scheduleSingleDate env d q f₁ 0 s).done)).1
      rw [show f₂ + (f₁ + k) = f₁ + f₂ + k by omega] at hL
      rw [show f₂ + f₁ = f₁ + f₂ by omega] at hR
      rw [hL, hR]
    · rw [schedulePass_cons, hs0, (hf₁ 0).2, Bool.and_true]
      have hR := (hf₂ f₁ ok).1
      rw [show f₂ + f₁ = f₁ + f₂ by omega] at hR
      rw [hR]
      exact (hf₂ 0 ok).2

/-- The state component of a whole scheduling day does not depend on the
incoming completion flag. -/
theorem scheduleDay_fst_ok (env : Env) (names : List Nat) (fuel d : Nat)
    (s : Sched) (ok : Bool) :
    (scheduleDay env names fuel d s ok).1 = (scheduleDay env names fuel d s true).1 := by
  have h1 : (schedulePass env d names fuel s ok).1
      = (schedulePass env d names fuel s true).1 :=
    schedulePass_fst_ok env d fuel names s ok
  show (schedulePass env d names fuel
      (redistribute env d names (schedulePass env d names fuel s ok).1)
      (schedulePass env d names fuel s ok).2).1
    = (schedulePass env d names fuel
      (redistribute env d names (schedulePass env d names fuel s true).1)
      (schedulePass env d names fuel s true).2).1
  rw [h1]
  exact (schedulePass_fst_ok env d fuel names _ _).trans
    (schedulePass_fst_ok env d fuel names _ _).symm

/-- With enough fuel, a whole scheduling day stabilises and reports all its
loops as completed. -/
theorem scheduleDay_term (env : Env) (names : List Nat) (d : Nat) (s : Sched)
    (hq : ∀ q ∈ names, 1 ≤ effAt env q d) (hp : PosBacklogs s) :
    ∃ f₀, ∀ k ok,
      scheduleDay env names (f₀ + k) d s ok = scheduleDay env names f₀ d s ok ∧
      (scheduleDay env names f₀ d s ok).2 = ok := by
  obtain ⟨f₁, hf₁⟩ := schedulePass_term env d names s hq hp
  have hp2 : PosBacklogs (redistribute env d names
      (schedulePass env d names f₁ s true).1) :=
    redistribute_pos env d names _ (schedulePass_pos env d f₁ names s true hp)
  obtain ⟨f₂, hf₂⟩ := schedulePass_term env d names
    (redistribute env d names (schedulePass env d names f₁ s true).1)
    hq hp2
  refine ⟨f₁ + f₂, fun k ok => ?_⟩
  have hexp : ∀ (fuel : Nat) (ok' : Bool), scheduleDay env names fuel d s ok'
      = schedulePass env d names fuel
          (redistribute env d names (schedulePass env d names fuel s ok').1)
          (schedulePass env d names fuel s ok').2 := fun _ _ => rfl
  have hp1k : schedulePass env d names (f₁ + f₂ + k) s ok
      = schedulePass env d names f₁ s ok := by
    have h := (hf₁ (f₂ + k) ok).1
    rwa [← Nat.add_assoc] at h
  have hp10 : schedulePass env d names (f₁ + f₂) s ok
      = schedulePass env d names f₁ s ok := (hf₁ f₂ ok).1
  constructor
  · rw [hexp, hexp, hp1k, hp10, (hf₁ 0 ok).2,
      schedulePass_fst_ok env d f₁ names s ok]
    have hL := (hf₂ (f₁ + k) ok).1
    have hR := (hf₂ f₁ ok).1
    rw [show f₂ + (f₁ + k) = f₁ + f₂ + k by omega] at hL
    rw [show f₂ + f₁ = f₁ + f₂ by omega] at hR
    rw [hL, hR]
  · rw [hexp, hp10, (hf₁ 0 ok).2, schedulePass_fst_ok env d f₁ names s ok]
    have hR := (hf₂ f₁ ok).1
    rw [show f₂ + f₁ = f₁ + f₂ by omega] at hR
    rw [hR]
    exact (hf₂ 0 ok).2

/-- With enough fuel, the whole day-advancing run stabilises and reports every
single-day loop as completed, provided every pool's efficiency is at least one
nominal unit on every timeline day and every outstanding effort is strictly
positive. -/
theorem scheduleForward_term (env : Env) (names : List Nat) :
    ∀ (ds : List Nat) (s : Sched),
      (∀ q ∈ names, ∀ dd ∈ ds, 1 ≤ effAt env q dd) → PosBacklogs s →
      ∃ f₀, ∀ k ok,
        scheduleForward env names (f₀ + k) s ok ds
          = scheduleForward env names f₀ s ok ds ∧
        (scheduleForward env names f₀ s ok ds).2.1 = ok
  | [], _, _, _ => ⟨0, fun _ _ => ⟨rfl, rfl⟩⟩
  | d :: rest, s, hq, hp => by
    have hqd : ∀ q ∈ names, 1 ≤ effAt env q d :=
      fun q hqm => hq q hqm d (List.mem_cons_self d rest)
    obtain ⟨f₁, hf₁⟩ := scheduleDay_term env names d s hqd hp
    have hp1 : PosBacklogs (scheduleDay env names f₁ d s true).1 :=
      scheduleDay_pos env names f₁ d s true hp
    obtain ⟨f₂, hf₂⟩ := scheduleForward_term env names rest
      (scheduleDay env names f₁ d s true).1
      (fun q hqm dd hdd => hq q hqm dd (List.mem_cons_of_mem _ hdd)) hp1
    refine ⟨f₁ + f₂, fun k ok => ?_⟩
    have hd1 : scheduleDay env names (f₁ + f₂ + k) d s ok
        = scheduleDay env names f₁ d s ok := by
      have h := (hf₁ (f₂ + k) ok).1
      rwa [← Nat.add_assoc] at h
    have hd0 : scheduleDay env names (f₁ + f₂) d s ok
        = scheduleDay env names f₁ d s ok := (hf₁ f₂ ok).1
    have hflag : (scheduleDay env names f₁ d s ok).2 = ok := (hf₁ 0 ok).2
    have hfst : (scheduleDay env names f₁ d s ok).1
        = (scheduleDay env names f₁ d s true).1 :=
      scheduleDay_fst_ok env names f₁ d s ok
    constructor
    · rw [scheduleForward, scheduleForward, hd1, hd0]
      by_cases hstop : allBacklogsEmpty (scheduleDay env names f₁ d s ok).1 = true
      · rw [if_pos hstop, if_pos hstop]
      · rw [if_neg hstop, if_neg hstop, hfst, hflag]
        have hL := (hf₂ (f₁ + k) ok).1
        have hR := (hf₂ f₁ ok).1
        rw [show f₂ + (f₁ + k) = f₁ + f₂ + k by omega] at hL
        rw [show f₂ + f₁ = f₁ + f₂ by omega] at hR
        rw [hL, hR]
    · rw [scheduleForward, hd0]
      by_cases hstop : allBacklogsEmpty (scheduleDay env names f₁ d s ok).1 = true
      · rw [if_pos hstop]
        exact hflag
      · rw [if_neg hstop, hfst, hflag]
        have hR := (hf₂ f₁ ok).1
        rw [show f₂ + f₁ = f₁ + f₂ by omega] at hR
        rw [hR]
        exact (hf₂ 0 ok).2

/-- C7 (amended): the day-advancing loop never overruns its stop condition — it
processes a prefix of the timeline (nonempty when the timeline is), exits
exactly at the first processed day after which the next day falls outside the
timeline or every backlog is empty, and at no earlier processed day were all
backlogs empty.  Termination for EVERY input fails (see the counterexample),
but under the conditions the spec presumes of sane data — every pool's per-day
efficiency at least one nominal labor unit and every outstanding effort
strictly positive — some finite fuel completes every single-day loop: the run
stabilises and reports all inner loops done. -/
theorem c7_theorem :
    (∀ (env : Env) (names : List Nat) (fuel : Nat) (ds : List Nat) (s : Sched) (ok : Bool),
      ∃ n, n ≤ ds.length ∧
        (ds ≠ [] → 0 < n) ∧
        (scheduleForward env names fuel s ok ds).1
            = (runDays env names fuel s ok (ds.take n)).1 ∧
        (scheduleForward env names fuel s ok ds).2.1
            = (runDays env names fuel s ok (ds.take n)).2 ∧
        (scheduleForward env names fuel s ok ds).2.2 = ds.drop n ∧
        (ds.drop n = [] ∨
          allBacklogsEmpty (scheduleForward env names fuel s ok ds).1 = true) ∧
        (∀ m, 0 < m → m < n →
          allBacklogsEmpty (runDays env names fuel s ok (ds.take m)).1 = false)) ∧
    (∀ (env : Env) (names ds : List Nat) (s : Sched),
      (∀ q ∈ names, ∀ dd ∈ ds, 1 ≤ effAt env q dd) → PosBacklogs s →
      ∃ f₀, ∀ k ok,
        scheduleForward env names (f₀ + k) s ok ds
          = scheduleForward env names f₀ s ok ds ∧
        (scheduleForward env names f₀ s ok ds).2.1 = ok) :=
  ⟨scheduleForward_exit, scheduleForward_term⟩

/-- Witness for C7 (amended): the single-day timeline with an effort-1 task at
efficiency 1 — the exit characterisation instantiated there, and a fuel bound
past which the run is stable with all loops completed. -/
theorem c7_witness :
    (∃ n, n ≤ 1 ∧
      (([0] : List Nat) ≠ [] → 0 < n) ∧
      (scheduleForward envA [0] 2 sOne true [0]).1
          = (runDays envA [0] 2 sOne true (([0] : List Nat).take n)).1 ∧
      (scheduleForward envA [0] 2 sOne true [0]).2.1
          = (runDays envA [0] 2 sOne true (([0] : List Nat).take n)).2 ∧
      (scheduleForward envA [0] 2 sOne true [0]).2.2 = ([0] : List Nat).drop n ∧
      (([0] : List Nat).drop n = [] ∨
        allBacklogsEmpty (scheduleForward envA [0] 2 sOne true [0]).1 = true) ∧
      (∀ m, 0 < m → m < n →
        allBacklogsEmpty (runDays envA [0] 2 sOne true (([0] : List Nat).take m)).1
          = false)) ∧
    (∃ f₀, ∀ k ok,
      scheduleForward envA [0] (f₀ + k) sOne ok [0]
        = scheduleForward envA [0] f₀ sOne ok [0] ∧
      (scheduleForward envA [0] f₀ sOne ok [0]).2.1 = ok) :=
  ⟨c7_theorem.1 envA [0] 2 [0] sOne true,
   c7_theorem.2 envA [0] [0] sOne (by decide) (by
     intro p e he
     rcases getD_mem_or_eq sOne.backlogs p [] with hm | hm
     · rw [List.mem_singleton.mp hm] at he
       have he2 := List.mem_singleton.mp he
       subst he2
       decide
     · rw [hm] at he
       exact absurd he (List.not_mem_nil e))⟩

end Projplan
